import Mathlib

/-!
Verification of the Pangfish cryptographic core.

This file gives a shallow embedding of the two components of the repository:

* `src/multipowerrsa.c` — Multi-Power RSA over GMP integers (`mpz_t` is
  modelled as `Int`), and
* `src/twofish.c` — the Twofish block cipher (`u32` is modelled as `Nat`
  reduced modulo `2^32`, `BYTE` as `Nat` reduced modulo `256`).

C strings are modelled as `List Nat` of byte values; blocks and keys as
`List Nat` of byte values.  The theorems at the end of the file settle the
specification's claims against these embeddings.
-/

/-! ## GMP facade used by multipowerrsa.c

`mpz_powm` is modelled by binary exponentiation with reduction at every
step; it is extensionally `a ^ e % m` (`powmN_eq`) but stays executable
for the large exponents the program uses.  Exponents in this program are
always nonnegative, so the `Int`-exponent wrapper truncates with `toNat`.
`mpz_mod` and `mpz_fdiv_q` with a positive divisor agree with `Int.emod`
and `Int.fdiv`.  `mpz_invert` reports failure when no inverse exists; in
that case GMP leaves the result operand with an unspecified value, which
the embedding models as `none` propagated to every later use. -/

def powmAux (fuel : Nat) (a : Int) (e : Nat) (m : Int) : Int :=
  match fuel with
  | 0 => 1 % m
  | fuel + 1 =>
    if e = 0 then 1 % m
    else
      let r := powmAux fuel ((a * a) % m) (e / 2) m
      if e % 2 = 1 then (r * a) % m else r

def powmN (a : Int) (e : Nat) (m : Int) : Int := powmAux e a e m

def powm (a b m : Int) : Int := powmN a b.toNat m

/-- Euclidean extended-gcd steps, fuel-guarded so that the kernel can
evaluate it: maintains Bezout rows `(r0, s0, t0)` and `(r1, s1, t1)`. -/
def egcdAux (fuel : Nat) (r0 : Nat) (s0 t0 : Int) (r1 : Nat) (s1 t1 : Int) :
    Nat × Int × Int :=
  match fuel with
  | 0 => (r0, s0, t0)
  | fuel + 1 =>
    if r1 = 0 then (r0, s0, t0)
    else
      egcdAux fuel r1 s1 t1 (r0 % r1)
        (s0 - (r0 / r1 : Nat) * s1) (t0 - (r0 / r1 : Nat) * t1)

def egcd (a b : Nat) : Nat × Int × Int := egcdAux (b + 1) a 1 0 b 0 1

def invertOpt (a m : Int) : Option Int :=
  if Int.gcd a m = 1 then some ((egcd ((a % m).toNat) m.toNat).2.1 % m) else none

/-! ## Multi-Power RSA context and operations (src/multipowerrsa.c) -/

structure mp_rsa_ctx where
  p : Int
  q : Int
  n : Int
  e : Int
  d : Int
  r1 : Int
  r2 : Int
  phi_n : Int
  p_power : Int
  key_size : Nat
  b : Nat
deriving DecidableEq, Repr

/-- `mp_rsa_init` (multipowerrsa.c:9-22): all big integers start at 0,
`e` at 65537. -/
def mp_rsa_init (key_size b : Nat) : mp_rsa_ctx :=
  { p := 0, q := 0, n := 0, e := 65537, d := 0, r1 := 0, r2 := 0,
    phi_n := 0, p_power := 0, key_size := key_size, b := b }

/-- `mp_rsa_encrypt` (multipowerrsa.c:120-130).  The result pair is the C
return code together with the output operand; `none` means the out
parameter was not written. -/
def mp_rsa_encrypt (ctx : mp_rsa_ctx) (message : Int) : Int × Option Int :=
  if ctx.n ≤ message then (-1, none)
  else (0, some (powm message ctx.e ctx.n))

/-- One iteration (index `i`) of the Hensel-lifting loop of
`mp_rsa_decrypt` (multipowerrsa.c:164-189), acting on the current
`m_prime1` value `mp`.  Note that the C code overwrites `temp` (which held
`p^i`) when computing the linearization inverse, and then multiplies the
reduced correction by `p_power_i = p^(i+1)` at line 186. -/
def henselIter (ctx : mp_rsa_ctx) (cipher mp : Int) (i : Nat) : Option Int :=
  let p_power_i := ctx.p ^ (i + 1)
  let error := (powm mp ctx.e p_power_i - cipher) % p_power_i
  let correction := error.fdiv (ctx.p ^ i)
  let t := (powm mp (ctx.e - 1) ctx.p * ctx.e) % ctx.p
  (invertOpt t ctx.p).map fun inverse =>
    (mp - ((correction * inverse) % ctx.p) * p_power_i) % p_power_i

/-- The Hensel-lifting phase of `mp_rsa_decrypt` (multipowerrsa.c:159-192):
for `b > 2` the loop runs `i = 1, …, b-2`; otherwise `m_prime1 = m1`. -/
def henselLift (ctx : mp_rsa_ctx) (cipher m1 : Int) : Option Int :=
  if 2 < ctx.b then
    (List.range (ctx.b - 2)).foldl
      (fun acc j => acc.bind fun mp => henselIter ctx cipher mp (j + 1))
      (some m1)
  else some m1

/-- `mp_rsa_decrypt` (multipowerrsa.c:133-233).  The C function ignores the
return values of its `mpz_invert` calls; a failed inversion leaves the
inverse operand unspecified, so every value computed from it is
unspecified — modelled by a `none` message component (the return code is
still 0, as in the C code). -/
def mp_rsa_decrypt (ctx : mp_rsa_ctx) (cipher : Int) : Int × Option Int :=
  if ctx.n ≤ cipher then (-1, none)
  else
    let m1 := powm cipher ctx.r1 ctx.p
    let m2 := powm cipher ctx.r2 ctx.q
    match henselLift ctx cipher m1 with
    | none => (0, none)
    | some m_prime1 =>
      match invertOpt ctx.q ctx.p_power, invertOpt ctx.p_power ctx.q with
      | some q_inv, some p_power_inv =>
        let term1 := m_prime1 * ctx.q * q_inv % ctx.n
        let term2 := m2 * ctx.p_power * p_power_inv % ctx.n
        (0, some ((term1 + term2) % ctx.n))
      | _, _ => (0, none)

/-- The update the specification prescribes for one Hensel iteration
(spec §4.1.3 step 3, written from the spec's words for comparison with
`henselIter`): `M'1 ← (M'1 − (ΔE·inv mod p)·P_i) mod P_{i+1}` with
`ΔE = E / P_i` and `inv = (e·M'1^(e-1))^(-1) mod p`. -/
def specHenselStep (ctx : mp_rsa_ctx) (cipher mp : Int) (i : Nat) : Option Int :=
  let bigP_i1 := ctx.p ^ (i + 1)
  let bigP_i := ctx.p ^ i
  let error := (powm mp ctx.e bigP_i1 - cipher) % bigP_i1
  let deltaE := error.fdiv bigP_i
  let t := (ctx.e * powm mp (ctx.e - 1) ctx.p) % ctx.p
  (invertOpt t ctx.p).map fun inv =>
    (mp - ((deltaE * inv) % ctx.p) * bigP_i) % bigP_i1

/-! ## The key-generation relation

`mp_rsa_generate_keys` (multipowerrsa.c:58-117) is randomized (seeded from
wall-clock time), so it is embedded as a relation: `GenSpec ctx` holds iff
`ctx` is a possible result of `mp_rsa_generate_keys` run on a context
initialised with `ctx.key_size` and `ctx.b`.  `generate_prime`
(multipowerrsa.c:38-55) draws `r < 2^bits`, sets bit `bits-1` and bit `0`,
and takes `mpz_nextprime` (the least prime strictly greater than its
argument).  The do/while loop retries until `gcd(e, φ(n)) = 1`, so a
possible result is exactly one whose primes satisfy the bit conditions and
whose `φ(n)` is coprime to `e`.  `b ≥ 2` is the data-model invariant of
the spec (§3) and `b < 2^32` is the C `unsigned int` representation
invariant; both guard the C unsigned subtractions `b-1`, `b-2`. -/

def NextPrime (r p : Nat) : Prop :=
  Nat.Prime p ∧ r < p ∧ ∀ k, k < p → r < k → ¬ Nat.Prime k

instance (r p : Nat) : Decidable (NextPrime r p) := by
  unfold NextPrime; infer_instance

def GeneratedPrime (bits p : Nat) : Prop :=
  ∃ r : Nat, r < 2 ^ bits ∧ r.testBit (bits - 1) = true ∧
    r.testBit 0 = true ∧ NextPrime r p

def GenSpec (ctx : mp_rsa_ctx) : Prop :=
  ∃ pN qN : Nat,
    GeneratedPrime (ctx.key_size * 2 / 3 / ctx.b) pN ∧
    GeneratedPrime (ctx.key_size / 3) qN ∧
    ctx.p = (pN : Int) ∧
    ctx.q = (qN : Int) ∧
    ctx.p_power = ctx.p ^ (ctx.b - 1) ∧
    ctx.n = ctx.p_power * ctx.q ∧
    ctx.e = 65537 ∧
    ctx.phi_n = (if 2 < ctx.b
      then (ctx.p - 1) * ctx.p ^ (ctx.b - 2) * (ctx.q - 1)
      else (ctx.p - 1) * (ctx.q - 1)) ∧
    Int.gcd ctx.e ctx.phi_n = 1 ∧
    invertOpt ctx.e ctx.phi_n = some ctx.d ∧
    ctx.r1 = ctx.d % (ctx.p - 1) ∧
    ctx.r2 = ctx.d % (ctx.q - 1) ∧
    2 ≤ ctx.b ∧ ctx.b < 4294967296

/-! ## Key serialization (multipowerrsa.c:236-387)

C strings are byte lists; 58 is the colon.  `mpz_get_str(…, 16, x)` emits
lowercase hex without padding ("0" for zero, a leading 45 = minus sign for
negatives).  `mpz_set_str(…, 16)` skips white space anywhere, accepts one
leading minus sign, then requires at least one digit and accepts hex
digits of either case; on failure it returns -1 and leaves its operand
unchanged (it validates the whole string into a temporary buffer before
writing).  `atoi` skips leading white space, takes an optional sign and a
maximal run of decimal digits, and returns 0 if there are none; the C
assignment to the `unsigned int` field `b` reduces modulo `2^32`. -/

def isSpaceB (c : Nat) : Bool := c = 32 || (9 ≤ c && c ≤ 13)

def isHexB (c : Nat) : Bool :=
  (48 ≤ c && c ≤ 57) || (97 ≤ c && c ≤ 102) || (65 ≤ c && c ≤ 70)

def hexVal (c : Nat) : Nat :=
  if 48 ≤ c ∧ c ≤ 57 then c - 48
  else if 97 ≤ c ∧ c ≤ 102 then c - 87
  else if 65 ≤ c ∧ c ≤ 70 then c - 55
  else 0

def hexDigitsVal (s : List Nat) : Option Nat :=
  s.foldl (fun acc c => acc.bind fun a =>
    if isHexB c then some (16 * a + hexVal c) else none) (some 0)

def mpz_set_str16 (s : List Nat) : Option Int :=
  match s.filter fun c => !(isSpaceB c) with
  | [] => none
  | c :: rest =>
    if c = 45 then
      if rest = [] then none else (hexDigitsVal rest).map fun v => -(v : Int)
    else (hexDigitsVal (c :: rest)).map fun v => (v : Int)

def atoiDigits (s : List Nat) : Nat :=
  (s.takeWhile fun c => 48 ≤ c && c ≤ 57).foldl (fun a c => 10 * a + (c - 48)) 0

def atoiModel (s : List Nat) : Int :=
  match s.dropWhile isSpaceB with
  | [] => 0
  | c :: rest =>
    if c = 45 then -(atoiDigits rest : Int)
    else if c = 43 then (atoiDigits rest : Int)
    else (atoiDigits (c :: rest) : Int)

/-- `strchr(s, ':')` together with the `*pos = 0; pos++` split idiom used
by the import routines: the part before the first colon and the part
after it. -/
def strchrColon (s : List Nat) : Option (List Nat × List Nat) :=
  match s with
  | [] => none
  | c :: cs =>
    if c = 58 then some ([], cs)
    else (strchrColon cs).map fun pr => (c :: pr.1, pr.2)

def hexDigitOf (d : Nat) : Nat := if d < 10 then 48 + d else 87 + d

def toHexNat (n : Nat) : List Nat :=
  if _h : n < 16 then [hexDigitOf n]
  else toHexNat (n / 16) ++ [hexDigitOf (n % 16)]
termination_by n
decreasing_by exact Nat.div_lt_self (by omega) (by omega)

def mpz_get_str16 (v : Int) : List Nat :=
  if v < 0 then 45 :: toHexNat v.natAbs else toHexNat v.toNat

def toDecNat (n : Nat) : List Nat :=
  if _h : n < 10 then [48 + n]
  else toDecNat (n / 10) ++ [48 + n % 10]
termination_by n
decreasing_by exact Nat.div_lt_self (by omega) (by omega)

/-- `mpz_sizeinbase(x, 16)`: the number of base-16 digits of `|x|`, the
sign excluded; exact for a power-of-two base, and 1 for `x = 0`. -/
def mpz_sizeinbase16 (v : Int) : Nat := (toHexNat v.natAbs).length

/-- `mp_rsa_export_public_key` (multipowerrsa.c:236-260): the string
`"<n_hex>:<e_hex>"` (allocation failure is not modelled).  Its `snprintf`
bound never truncates: the buffer is `(sizeinbase n + 2) + (sizeinbase e
+ 2) + 2` bytes, while the string needs at most `(sizeinbase n + 1) + 1 +
(sizeinbase e + 1)` plus the terminator, which always fits. -/
def mp_rsa_export_public_key (ctx : mp_rsa_ctx) : List Nat :=
  mpz_get_str16 ctx.n ++ 58 :: mpz_get_str16 ctx.e

/-- `mp_rsa_export_private_key` (multipowerrsa.c:263-294): the string
`"<p>:<q>:<r1>:<r2>:<b_decimal>"`, written by `snprintf` into a buffer of
`key_len = Σ (mpz_sizeinbase(·,16) + 2 over p,q,r1,r2) + 5` bytes, so at
most `key_len - 1` characters survive (`snprintf` keeps one byte for the
terminator).  Base-16 `sizeinbase` is exact, so after the four hex fields
and four colons exactly 8 characters remain for the decimal `b` field
(printed with `%u`, hence modulo `2^32`): a `b` of nine or more digits is
truncated. -/
def mp_rsa_export_private_key (ctx : mp_rsa_ctx) : List Nat :=
  let key_len := (mpz_sizeinbase16 ctx.p + 2) + (mpz_sizeinbase16 ctx.q + 2) +
    (mpz_sizeinbase16 ctx.r1 + 2) + (mpz_sizeinbase16 ctx.r2 + 2) + 5
  (mpz_get_str16 ctx.p ++ 58 ::
    (mpz_get_str16 ctx.q ++ 58 ::
      (mpz_get_str16 ctx.r1 ++ 58 ::
        (mpz_get_str16 ctx.r2 ++ 58 ::
          toDecNat (ctx.b % 4294967296))))).take (key_len - 1)

/-- `mp_rsa_import_public_key` (multipowerrsa.c:297-322).  The two
`mpz_set_str` calls are short-circuited with `||`, so a failure of the
`e` field happens after `n` has already been overwritten. -/
def mp_rsa_import_public_key (ctx : mp_rsa_ctx) (key : List Nat) :
    Int × mp_rsa_ctx :=
  match strchrColon key with
  | none => (-2, ctx)
  | some (nStr, eStr) =>
    match mpz_set_str16 nStr with
    | none => (-3, ctx)
    | some nv =>
      match mpz_set_str16 eStr with
      | none => (-3, { ctx with n := nv })
      | some ev => (0, { ctx with n := nv, e := ev })

/-- `mp_rsa_import_private_key` (multipowerrsa.c:325-387).  The four hex
fields are parsed with short-circuit `||`; `b` is parsed with `atoi`
(never rejected) and assigned to the `unsigned int` field, and then
`p_power = p^(b-1)` and `n = p_power·q` are recomputed, where `b-1` is
the C unsigned subtraction. -/
def mp_rsa_import_private_key (ctx : mp_rsa_ctx) (key : List Nat) :
    Int × mp_rsa_ctx :=
  match strchrColon key with
  | none => (-2, ctx)
  | some (pStr, rest1) =>
  match strchrColon rest1 with
  | none => (-2, ctx)
  | some (qStr, rest2) =>
  match strchrColon rest2 with
  | none => (-2, ctx)
  | some (r1Str, rest3) =>
  match strchrColon rest3 with
  | none => (-2, ctx)
  | some (r2Str, bStr) =>
  match mpz_set_str16 pStr with
  | none => (-3, ctx)
  | some pv =>
  match mpz_set_str16 qStr with
  | none => (-3, { ctx with p := pv })
  | some qv =>
  match mpz_set_str16 r1Str with
  | none => (-3, { ctx with p := pv, q := qv })
  | some r1v =>
  match mpz_set_str16 r2Str with
  | none => (-3, { ctx with p := pv, q := qv, r1 := r1v })
  | some r2v =>
    let bv : Nat := ((atoiModel bStr) % 4294967296).toNat
    let ppv := pv ^ ((bv + 4294967295) % 4294967296)
    (0, { ctx with
          p := pv, q := qv, r1 := r1v, r2 := r2v, b := bv,
          p_power := ppv, n := ppv * qv })

/-! ## Concrete contexts used in the claim theorems

Each is a possible output of `mp_rsa_generate_keys` at a small key size
(the `GenSpec` membership is proved below). -/

/-- A `(key_size = 12, b = 2)` generated context: bit sizes are 4 and 4,
`p = nextprime(9) = 11`, `q = nextprime(11) = 13`, `φ = 120`,
`d = 65537⁻¹ mod 120 = 113`. -/
def ctxB2 : mp_rsa_ctx :=
  { p := 11, q := 13, n := 143, e := 65537, d := 113, r1 := 3, r2 := 5,
    phi_n := 120, p_power := 11, key_size := 12, b := 2 }

/-- A `(key_size = 12, b = 2)` generated context in which both prime draws
came out equal: `p = q = nextprime(9) = 11`, `φ = 100`,
`d = 65537⁻¹ mod 100 = 73`. -/
def ctxB2dup : mp_rsa_ctx :=
  { p := 11, q := 11, n := 121, e := 65537, d := 73, r1 := 3, r2 := 3,
    phi_n := 100, p_power := 11, key_size := 12, b := 2 }

/-- A `(key_size = 14, b = 3)` generated context: bit sizes are 3 and 4,
`p = nextprime(5) = 7`, `q = nextprime(9) = 11`, `n = 7²·11 = 539`,
`φ = 6·7·10 = 420`, `d = 65537⁻¹ mod 420 = 173`. -/
def ctxB3 : mp_rsa_ctx :=
  { p := 7, q := 11, n := 539, e := 65537, d := 173, r1 := 5, r2 := 3,
    phi_n := 420, p_power := 49, key_size := 14, b := 3 }

/-- A corrupt private key context, as produced by importing the malformed
private key `"2:2:1:1:2"`: `p = q = 2`, so `gcd(q, p_power) = 2` and the
CRT inverses of `mp_rsa_decrypt` do not exist. -/
def ctxCorrupt : mp_rsa_ctx :=
  { p := 2, q := 2, n := 4, e := 65537, d := 0, r1 := 1, r2 := 1,
    phi_n := 0, p_power := 2, key_size := 1024, b := 2 }

/-- A context carrying the serialization-relevant fields of a generated
`b = 10^8` instance: `mp_rsa_export_private_key` reads only `p`, `q`,
`r1`, `r2` and `b`, set here to small primes, small CRT remainders, and
the nine-digit `b = 100000000`.  (In the generation model a `b ≥ 10^8`
forces `key_size ≥ 3b/2`, hence `bits_q = key_size/3 ≥ b/2`, so the
remaining fields of a generated instance — `q`, `n`, `φ(n)`, `d`,
`p_power` — are numbers of at least `5·10^7` bits; they are left at 0
here, as the export never looks at them.) -/
def ctxTrunc : mp_rsa_ctx :=
  { p := 11, q := 13, n := 0, e := 65537, d := 0, r1 := 3, r2 := 5,
    phi_n := 0, p_power := 0, key_size := 600000000, b := 100000000 }

/-! ## Twofish (src/twofish.c)

`u32` is `Nat` reduced modulo `2^32`; `BYTE` is `Nat` below 256.  The
fixed tables `Q0`, `Q1`, `RS`, `mult5B`, `multEF` live in `tables.h`,
which is not part of `src/`; they are modelled from the specification
(spec §4.2.1: "Fixed tables provided (must match the Twofish
specification bitwise)"). -/

def b0 (x : Nat) : Nat := x % 256

def b1 (x : Nat) : Nat := x / 256 % 256

def b2 (x : Nat) : Nat := x / 65536 % 256

def b3 (x : Nat) : Nat := x / 16777216 % 256

/-- The `_b(x, N)` macro: `(x >> (N*8)) & 0xFF`. -/
def _b (x n : Nat) : Nat := x / 2 ^ (n * 8) % 256

def ROL (x n : Nat) : Nat :=
  ((x % 4294967296) <<< (n % 32) |||
    (x % 4294967296) >>> (32 - n % 32)) % 4294967296

def ROR (x n : Nat) : Nat :=
  ((x % 4294967296) >>> (n % 32) |||
    (x % 4294967296) <<< (32 - n % 32)) % 4294967296

/-- `polyMult` (twofish.c:31-41), fuel-guarded: the C loop halves `a`
until zero, at most 32 times for a `u32`. -/
def polyMultAux : Nat → Nat → Nat → Nat → Nat
  | 0, _, _, t => t
  | fuel + 1, a, bb, t =>
    if a = 0 then t
    else polyMultAux fuel (a / 2) (bb * 2 % 4294967296)
      (if a % 2 = 1 then t ^^^ bb else t)

def polyMult (a bb : Nat) : Nat := polyMultAux 32 a bb 0

/-- One conditional-subtract step of `gfMod` (twofish.c:44-57). -/
def gfModStep (t modulus : Nat) : Nat :=
  let tt := t ^^^ modulus
  if tt < t then tt else t

def gfMod (t modulus : Nat) : Nat :=
  (List.range 8).foldl
    (fun tt i => gfModStep tt ((modulus <<< 7 % 4294967296) >>> i)) t

def gfMult (a bb modulus : Nat) : Nat := gfMod (polyMult a bb) modulus

def RS_MOD : Nat := 0x14D

def RHO : Nat := 0x01010101

/-- Modelled from the spec: the nibble tables of the Twofish `q0`
permutation (tables.h is absent from src/; these are the `t0..t3` rows
for `q0` from the Twofish specification). -/
def q0t0 : List Nat := [0x8, 0x1, 0x7, 0xD, 0x6, 0xF, 0x3, 0x2, 0x0, 0xB, 0x5, 0x9, 0xE, 0xC, 0xA, 0x4]

def q0t1 : List Nat := [0xE, 0xC, 0xB, 0x8, 0x1, 0x2, 0x3, 0x5, 0xF, 0x4, 0xA, 0x6, 0x7, 0x0, 0x9, 0xD]

def q0t2 : List Nat := [0xB, 0xA, 0x5, 0xE, 0x6, 0xD, 0x9, 0x0, 0xC, 0x8, 0xF, 0x3, 0x2, 0x4, 0x7, 0x1]

def q0t3 : List Nat := [0xD, 0x7, 0xF, 0x4, 0x1, 0x2, 0x6, 0xE, 0x9, 0xB, 0x3, 0x0, 0x8, 0x5, 0xC, 0xA]

/-- Modelled from the spec: the nibble tables of the Twofish `q1`
permutation. -/
def q1t0 : List Nat := [0x2, 0x8, 0xB, 0xD, 0xF, 0x7, 0x6, 0xE, 0x3, 0x1, 0x9, 0x4, 0x0, 0xA, 0xC, 0x5]

def q1t1 : List Nat := [0x1, 0xE, 0x2, 0xB, 0x4, 0xC, 0x3, 0x7, 0x6, 0xD, 0xA, 0x5, 0xF, 0x9, 0x0, 0x8]

def q1t2 : List Nat := [0x4, 0xC, 0x7, 0x5, 0x1, 0x6, 0x9, 0xA, 0x0, 0xE, 0xD, 0x8, 0x2, 0xB, 0x3, 0xF]

def q1t3 : List Nat := [0xB, 0x9, 0x5, 0x1, 0xC, 0x3, 0xD, 0xE, 0x6, 0x4, 0x7, 0xF, 0x2, 0x0, 0x8, 0xA]

/-- 4-bit rotation right by one, used by the `q` construction. -/
def ror4 (x : Nat) : Nat := x >>> 1 ||| (x &&& 1) <<< 3

/-- Modelled from the spec: a Twofish `q` permutation built from its four
nibble tables (the byte tables `Q0[256]`, `Q1[256]` of tables.h are the
graphs of these maps). -/
def qPerm (t0 t1 t2 t3 : List Nat) (x : Nat) : Nat :=
  let a0 := x / 16
  let bq0 := x % 16
  let a1 := a0 ^^^ bq0
  let bq1 := a0 ^^^ ror4 bq0 ^^^ 8 * a0 % 16
  let a2 := t0.getD a1 0
  let bq2 := t1.getD bq1 0
  let a3 := a2 ^^^ bq2
  let bq3 := a2 ^^^ ror4 bq2 ^^^ 8 * a2 % 16
  16 * t3.getD bq3 0 + t2.getD a3 0

def Q0 (x : Nat) : Nat := qPerm q0t0 q0t1 q0t2 q0t3 x

def Q1 (x : Nat) : Nat := qPerm q1t0 q1t1 q1t2 q1t3 x

/-- Modelled from the spec: multiplication by 0x5B in GF(2^8) modulo the
Twofish MDS polynomial 0x169 (the `mult5B[256]` table of tables.h). -/
def mult5B (x : Nat) : Nat := gfMult 0x5B x 0x169

/-- Modelled from the spec: multiplication by 0xEF in GF(2^8) modulo the
Twofish MDS polynomial 0x169 (the `multEF[256]` table of tables.h). -/
def multEF (x : Nat) : Nat := gfMult 0xEF x 0x169

/-- Modelled from the spec: the Reed-Solomon matrix `RS[4][8]` of the
Twofish specification (tables.h is absent from src/). -/
def RS : List (List Nat) :=
  [[0x01, 0xA4, 0x55, 0x87, 0x5A, 0x58, 0xDB, 0x9E],
   [0xA4, 0x56, 0x82, 0xF3, 0x1E, 0xC6, 0x68, 0xE5],
   [0x02, 0xA1, 0xFC, 0xC1, 0x47, 0xAE, 0x3D, 0x19],
   [0xA4, 0x55, 0x87, 0x5A, 0x58, 0xDB, 0x9E, 0x03]]

/-- `RSMatrixMultiply` (twofish.c:65-81): `result[3-j]` is the GF dot
product of RS row `j` with the 8-byte vector, packed big-endian. -/
def RSMatrixMultiply (sd : Nat → Nat) : Nat :=
  let row := fun j => (List.range 8).foldl
    (fun t k => t ^^^ gfMult ((RS.getD j []).getD k 0) (sd k) RS_MOD) 0
  row 3 <<< 24 ^^^ row 2 <<< 16 ^^^ row 1 <<< 8 ^^^ row 0

/-- The four per-byte values threaded through the `switch` of `h` and
`fullKey`. -/
structure B4 where
  y0 : Nat
  y1 : Nat
  y2 : Nat
  y3 : Nat

/-- The `case 4:` body of the switch in `h`/`fullKey` (identical text in
both C functions). -/
def qLayer4 (L : Nat → Nat) (v : B4) : B4 :=
  ⟨Q1 v.y0 ^^^ b0 (L 3), Q0 v.y1 ^^^ b1 (L 3),
   Q0 v.y2 ^^^ b2 (L 3), Q1 v.y3 ^^^ b3 (L 3)⟩

/-- The `case 3:` body. -/
def qLayer3 (L : Nat → Nat) (v : B4) : B4 :=
  ⟨Q1 v.y0 ^^^ b0 (L 2), Q1 v.y1 ^^^ b1 (L 2),
   Q0 v.y2 ^^^ b2 (L 2), Q0 v.y3 ^^^ b3 (L 2)⟩

/-- The `case 2:` body. -/
def qLayer2 (L : Nat → Nat) (v : B4) : B4 :=
  ⟨Q1 (Q0 (Q0 v.y0 ^^^ b0 (L 1)) ^^^ b0 (L 0)),
   Q0 (Q0 (Q1 v.y1 ^^^ b1 (L 1)) ^^^ b1 (L 0)),
   Q1 (Q1 (Q0 v.y2 ^^^ b2 (L 1)) ^^^ b2 (L 0)),
   Q0 (Q1 (Q1 v.y3 ^^^ b3 (L 1)) ^^^ b3 (L 0))⟩

/-- The fall-through `switch(k)` of `h` (twofish.c:93-110) and `fullKey`
(twofish.c:132-149): `case 4` falls into `case 3` falls into `case 2`. -/
def qSwitch (L : Nat → Nat) (k : Nat) (v : B4) : B4 :=
  if k = 4 then qLayer2 L (qLayer3 L (qLayer4 L v))
  else if k = 3 then qLayer2 L (qLayer3 L v)
  else if k = 2 then qLayer2 L v
  else v

/-- The zero-keyed `h` function (twofish.c:84-119): the Q-permutation
switch followed by the inlined MDS multiply (the `z` variables are C
`BYTE`s, hence the reductions modulo 256), packed with `BYTES_TO_U32`. -/
def h (X : Nat) (L : Nat → Nat) (k : Nat) : Nat :=
  let v := qSwitch L k ⟨b0 X, b1 X, b2 X, b3 X⟩
  let z0 := (multEF v.y0 ^^^ v.y1 ^^^ multEF v.y2 ^^^ mult5B v.y3) % 256
  let z1 := (multEF v.y0 ^^^ mult5B v.y1 ^^^ v.y2 ^^^ multEF v.y3) % 256
  let z2 := (mult5B v.y0 ^^^ multEF v.y1 ^^^ multEF v.y2 ^^^ v.y3) % 256
  let z3 := (v.y0 ^^^ multEF v.y1 ^^^ mult5B v.y2 ^^^ mult5B v.y3) % 256
  z0 <<< 24 ^^^ z1 <<< 16 ^^^ z2 <<< 8 ^^^ z3

/-- `fullKey` (twofish.c:122-169): the table `QF[j][i]` as a function of
`j` and `i` — the same Q-permutation switch applied to `(i,i,i,i)`, then
the partial MDS columns packed with `|`. -/
def fullKey (S : Nat → Nat) (k : Nat) : Nat → Nat → Nat := fun j i =>
  let v := qSwitch S k ⟨i, i, i, i⟩
  if j = 0 then
    multEF v.y0 <<< 24 ||| multEF v.y0 <<< 16 ||| mult5B v.y0 <<< 8 ||| v.y0
  else if j = 1 then
    v.y1 <<< 24 ||| mult5B v.y1 <<< 16 ||| multEF v.y1 <<< 8 ||| multEF v.y1
  else if j = 2 then
    multEF v.y2 <<< 24 ||| v.y2 <<< 16 ||| multEF v.y2 <<< 8 ||| mult5B v.y2
  else if j = 3 then
    mult5B v.y3 <<< 24 ||| multEF v.y3 <<< 16 ||| v.y3 <<< 8 ||| mult5B v.y3
  else 0

structure TWOFISH_CTX where
  K : Nat → Nat
  QF : Nat → Nat → Nat

/-- The `fkh` macro (twofish.c:172): the fully keyed `g` via the four QF
tables. -/
def fkh (ctx : TWOFISH_CTX) (X : Nat) : Nat :=
  ctx.QF 0 (b0 X) ^^^ ctx.QF 1 (b1 X) ^^^ ctx.QF 2 (b2 X) ^^^ ctx.QF 3 (b3 X)

/-- A 16-byte block viewed as four little-endian 32-bit words (the
`((u32*)PT)[j]` casts; `BSWAP` is the identity on the little-endian
hosts this code targets, `BIG_ENDIAN == 0` in twofish.h). -/
def wordAt (bytes : List Nat) (j : Nat) : Nat :=
  bytes.getD (4 * j) 0 + 256 * bytes.getD (4 * j + 1) 0 +
    65536 * bytes.getD (4 * j + 2) 0 + 16777216 * bytes.getD (4 * j + 3) 0

def bytesOfWord (w : Nat) : List Nat :=
  [w % 256, w / 256 % 256, w / 65536 % 256, w / 16777216 % 256]

/-- `twofish_set_key` (twofish.c:259-296). -/
def twofish_set_key (M : List Nat) (key_size : Nat) : TWOFISH_CTX :=
  let k := (key_size + 63) / 64
  let Me : Nat → Nat := fun i => wordAt M (2 * i)
  let Mo : Nat → Nat := fun i => wordAt M (2 * i + 1)
  let S : Nat → Nat := fun j =>
    RSMatrixMultiply (fun idx =>
      if idx < 4 then _b (Me (k - 1 - j)) idx else _b (Mo (k - 1 - j)) (idx - 4))
  { K := fun idx =>
      let i := idx / 2
      let A := h (2 * i * RHO) Me k
      let B := ROL (h (2 * i * RHO + RHO) Mo k) 8
      if idx % 2 = 0 then (A + B) % 4294967296 else ROL (A + 2 * B) 9,
    QF := fullKey S k }

/-- The four-word round state `(R0,R1,R2,R3)`. -/
structure St where
  r0 : Nat
  r1 : Nat
  r2 : Nat
  r3 : Nat

/-- The `ENC_ROUND` macro (twofish.c:175-179) in its canonical argument
order: updates `R2`, `R3` from `R0`, `R1`. -/
def eRound (ctx : TWOFISH_CTX) (round : Nat) (s : St) : St :=
  let T0 := fkh ctx s.r0
  let T1 := fkh ctx (ROL s.r1 8)
  { r0 := s.r0, r1 := s.r1,
    r2 := ROR (s.r2 ^^^ ((T1 + T0 + ctx.K (2 * round + 8)) % 4294967296)) 1,
    r3 := ROL s.r3 1 ^^^ ((2 * T1 + T0 + ctx.K (2 * round + 9)) % 4294967296) }

/-- The `DEC_ROUND` macro (twofish.c:217-221) in its canonical argument
order. -/
def dRound (ctx : TWOFISH_CTX) (round : Nat) (s : St) : St :=
  let T0 := fkh ctx s.r0
  let T1 := fkh ctx (ROL s.r1 8)
  { r0 := s.r0, r1 := s.r1,
    r2 := ROL s.r2 1 ^^^ ((T0 + T1 + ctx.K (2 * round + 8)) % 4294967296),
    r3 := ROR (s.r3 ^^^ ((T0 + 2 * T1 + ctx.K (2 * round + 9)) % 4294967296)) 1 }

def swapHalves (s : St) : St := ⟨s.r2, s.r3, s.r0, s.r1⟩

/-- A round macro invoked with the swapped argument order
`(R2,R3,R0,R1,round)`: conjugation by the half-swap. -/
def eRoundS (ctx : TWOFISH_CTX) (round : Nat) (s : St) : St :=
  swapHalves (eRound ctx round (swapHalves s))

def dRoundS (ctx : TWOFISH_CTX) (round : Nat) (s : St) : St :=
  swapHalves (dRound ctx round (swapHalves s))

/-- The sixteen `ENC_ROUND` invocations of `twofish_encrypt`
(twofish.c:192-207), alternating canonical and swapped argument order. -/
def encCore (ctx : TWOFISH_CTX) (s : St) : St :=
  eRoundS ctx 15 (eRound ctx 14 (eRoundS ctx 13 (eRound ctx 12
    (eRoundS ctx 11 (eRound ctx 10 (eRoundS ctx 9 (eRound ctx 8
      (eRoundS ctx 7 (eRound ctx 6 (eRoundS ctx 5 (eRound ctx 4
        (eRoundS ctx 3 (eRound ctx 2 (eRoundS ctx 1 (eRound ctx 0 s)))))))))))))))

/-- The sixteen `DEC_ROUND` invocations of `twofish_decrypt`
(twofish.c:234-249), from round 15 down to 0. -/
def decCore (ctx : TWOFISH_CTX) (s : St) : St :=
  dRoundS ctx 0 (dRound ctx 1 (dRoundS ctx 2 (dRound ctx 3
    (dRoundS ctx 4 (dRound ctx 5 (dRoundS ctx 6 (dRound ctx 7
      (dRoundS ctx 8 (dRound ctx 9 (dRoundS ctx 10 (dRound ctx 11
        (dRoundS ctx 12 (dRound ctx 13 (dRoundS ctx 14 (dRound ctx 15 s)))))))))))))))

/-- `twofish_encrypt` (twofish.c:181-214): input whitening with
`K[0..3]`, 16 rounds, output taps `(R2,R3,R0,R1)` whitened with
`K[4..7]`, written back little-endian. -/
def twofish_encrypt (ctx : TWOFISH_CTX) (PT : List Nat) : List Nat :=
  let s0 : St := ⟨ctx.K 0 ^^^ wordAt PT 0, ctx.K 1 ^^^ wordAt PT 1,
    ctx.K 2 ^^^ wordAt PT 2, ctx.K 3 ^^^ wordAt PT 3⟩
  let s := encCore ctx s0
  bytesOfWord (s.r2 ^^^ ctx.K 4) ++ bytesOfWord (s.r3 ^^^ ctx.K 5) ++
    bytesOfWord (s.r0 ^^^ ctx.K 6) ++ bytesOfWord (s.r1 ^^^ ctx.K 7)

/-- `twofish_decrypt` (twofish.c:223-256). -/
def twofish_decrypt (ctx : TWOFISH_CTX) (PT : List Nat) : List Nat :=
  let s0 : St := ⟨ctx.K 4 ^^^ wordAt PT 0, ctx.K 5 ^^^ wordAt PT 1,
    ctx.K 6 ^^^ wordAt PT 2, ctx.K 7 ^^^ wordAt PT 3⟩
  let s := decCore ctx s0
  bytesOfWord (s.r2 ^^^ ctx.K 0) ++ bytesOfWord (s.r3 ^^^ ctx.K 1) ++
    bytesOfWord (s.r0 ^^^ ctx.K 2) ++ bytesOfWord (s.r1 ^^^ ctx.K 3)

/-! # Theorems

Basic properties of the arithmetic primitives, then the claim theorems. -/

theorem emod_pow_emod (x : Int) (k : Nat) (m : Int) : (x % m) ^ k % m = x ^ k % m := by
  have h : x % m ≡ x [ZMOD m] := Int.emod_emod_of_dvd x dvd_rfl
  exact h.pow k

theorem emod_mul_emod (x y m : Int) : x % m * y % m = x * y % m := by
  have h : x % m ≡ x [ZMOD m] := Int.emod_emod_of_dvd x dvd_rfl
  exact h.mul_right y

theorem powmAux_eq (fuel : Nat) :
    ∀ (a : Int) (e : Nat) (m : Int), e ≤ fuel → powmAux fuel a e m = a ^ e % m := by
  induction fuel with
  | zero =>
    intro a e m he
    have : e = 0 := by omega
    subst this
    simp [powmAux]
  | succ fuel ih =>
    intro a e m he
    rw [powmAux]
    by_cases h0 : e = 0
    · subst h0; simp
    · rw [if_neg h0]
      have hrec : powmAux fuel ((a * a) % m) (e / 2) m = ((a * a) % m) ^ (e / 2) % m :=
        ih _ _ _ (by omega)
      have hpow : (a * a) ^ (e / 2) = a ^ (2 * (e / 2)) := by
        rw [two_mul, pow_add, ← mul_pow]
      by_cases hodd : e % 2 = 1
      · rw [if_pos hodd, hrec, emod_pow_emod, hpow, emod_mul_emod, ← pow_succ]
        have h2 : 2 * (e / 2) + 1 = e := by omega
        rw [h2]
      · rw [if_neg hodd, hrec, emod_pow_emod, hpow]
        have h2 : 2 * (e / 2) = e := by omega
        rw [h2]

theorem powmN_eq (a : Int) (e : Nat) (m : Int) : powmN a e m = a ^ e % m :=
  powmAux_eq e a e m le_rfl

theorem powm_eq (a b m : Int) : powm a b m = a ^ b.toNat % m := powmN_eq a b.toNat m

theorem egcdAux_spec (fuel : Nat) :
    ∀ (r0 : Nat) (s0 t0 : Int) (r1 : Nat) (s1 t1 : Int) (a b : Nat),
      r1 ≤ fuel →
      s0 * (a : Int) + t0 * (b : Int) = (r0 : Int) →
      s1 * (a : Int) + t1 * (b : Int) = (r1 : Int) →
      (egcdAux fuel r0 s0 t0 r1 s1 t1).1 = Nat.gcd r0 r1 ∧
      (egcdAux fuel r0 s0 t0 r1 s1 t1).2.1 * (a : Int) +
        (egcdAux fuel r0 s0 t0 r1 s1 t1).2.2 * (b : Int) =
          ((egcdAux fuel r0 s0 t0 r1 s1 t1).1 : Int) := by
  induction fuel with
  | zero =>
    intro r0 s0 t0 r1 s1 t1 a b hle h0 h1
    have : r1 = 0 := by omega
    subst this
    simp [egcdAux, h0]
  | succ fuel ih =>
    intro r0 s0 t0 r1 s1 t1 a b hle h0 h1
    by_cases hz : r1 = 0
    · subst hz
      simp [egcdAux, h0]
    · rw [egcdAux, if_neg hz]
      have hmod : (((r0 % r1 : Nat) : Int)) =
          (r0 : Int) - ((r0 / r1 : Nat) : Int) * (r1 : Int) := by
        have h2 := congrArg (fun n : Nat => (n : Int)) (Nat.mod_add_div' r0 r1)
        simp only [Nat.cast_add, Nat.cast_mul] at h2
        linarith
      have hnew : (s0 - ((r0 / r1 : Nat) : Int) * s1) * (a : Int) +
          (t0 - ((r0 / r1 : Nat) : Int) * t1) * (b : Int) = ((r0 % r1 : Nat) : Int) := by
        rw [hmod, ← h0, ← h1]; ring
      have hrec := ih r1 s1 t1 (r0 % r1) _ _ a b
        (by
          have : r0 % r1 < r1 := Nat.mod_lt _ (by omega)
          omega) h1 hnew
      refine ⟨?_, hrec.2⟩
      rw [hrec.1, Nat.gcd_comm r1 (r0 % r1), ← Nat.gcd_rec r1 r0, Nat.gcd_comm r1 r0]

theorem egcd_spec (a b : Nat) :
    (egcd a b).1 = Nat.gcd a b ∧
    (egcd a b).2.1 * (a : Int) + (egcd a b).2.2 * (b : Int) = ((egcd a b).1 : Int) :=
  egcdAux_spec (b + 1) a 1 0 b 0 1 a b (by omega) (by ring) (by ring)

theorem gcd_emod_left_eq_one (a m : Int) (h : Int.gcd a m = 1) :
    Int.gcd (a % m) m = 1 := by
  have hc : IsCoprime a m := Int.isCoprime_iff_gcd_eq_one.mpr h
  have h2 : IsCoprime (a + m * -(a / m)) m := hc.add_mul_left_left (-(a / m))
  have h3 : a % m = a + m * -(a / m) := by
    rw [Int.emod_def]; ring
  rw [h3]
  exact Int.isCoprime_iff_gcd_eq_one.mp h2

theorem invertOpt_some_spec (a m v : Int) (hm : 0 < m) (h : invertOpt a m = some v) :
    a * v ≡ 1 [ZMOD m] ∧ 0 ≤ v ∧ v < m := by
  unfold invertOpt at h
  by_cases hg : Int.gcd a m = 1
  · rw [if_pos hg] at h
    set s := (egcd ((a % m).toNat) m.toNat).2.1 with hs
    set t := (egcd ((a % m).toNat) m.toNat).2.2 with ht
    have hv : v = s % m := (Option.some_inj.mp h).symm
    have hcast_a : (((a % m).toNat : Nat) : Int) = a % m :=
      Int.toNat_of_nonneg (Int.emod_nonneg a (ne_of_gt hm))
    have hcast_m : ((m.toNat : Nat) : Int) = m := Int.toNat_of_nonneg (le_of_lt hm)
    have hgcd : Nat.gcd ((a % m).toNat) m.toNat = 1 := by
      have h1 : Int.gcd (((a % m).toNat : Nat) : Int) ((m.toNat : Nat) : Int) =
          Nat.gcd ((a % m).toNat) m.toNat := rfl
      rw [hcast_a, hcast_m] at h1
      rw [← h1]
      exact gcd_emod_left_eq_one a m hg
    have hbez := (egcd_spec ((a % m).toNat) m.toNat).2
    rw [(egcd_spec ((a % m).toNat) m.toNat).1, hgcd, hcast_a, hcast_m, ← hs, ← ht] at hbez
    refine ⟨?_, ?_, ?_⟩
    · have base : s % m ≡ s [ZMOD m] := Int.emod_emod_of_dvd s dvd_rfl
      have base2 : a ≡ a % m [ZMOD m] := (Int.emod_emod_of_dvd a dvd_rfl).symm
      have e1 : a * v ≡ a * s [ZMOD m] := by rw [hv]; exact base.mul_left a
      have e2 : a * s ≡ (a % m) * s [ZMOD m] := base2.mul_right s
      have e3 : (a % m) * s = 1 - t * m := by push_cast at hbez; linarith
      have e4 : (1 : Int) - t * m ≡ 1 [ZMOD m] := by
        have hr : (1 : Int) - t * m = 1 + m * (-t) := by ring
        show ((1 : Int) - t * m) % m = 1 % m
        rw [hr]
        exact Int.add_mul_emod_self_left 1 m (-t)
      exact ((e1.trans e2).trans (e3 ▸ Int.ModEq.refl _)).trans e4
    · rw [hv]; exact Int.emod_nonneg _ (ne_of_gt hm)
    · rw [hv]; exact Int.emod_lt_of_pos _ hm
  · rw [if_neg hg] at h
    exact absurd h (by simp)

theorem invertOpt_isSome_of_gcd (a m : Int) (hg : Int.gcd a m = 1) :
    ∃ v, invertOpt a m = some v := by
  unfold invertOpt
  rw [if_pos hg]
  exact ⟨_, rfl⟩

theorem pow_modEq_self_of_prime (p : Nat) (hp : p.Prime) (a : Int) (k : Nat)
    (hk : 1 ≤ k) (hcong : (p - 1) ∣ (k - 1)) : a ^ k ≡ a [ZMOD (p : Int)] := by
  haveI : Fact p.Prime := ⟨hp⟩
  obtain ⟨t, ht⟩ := hcong
  have hkt : k = (p - 1) * t + 1 := by omega
  have hz : ((a ^ k : Int) : ZMod p) = ((a : Int) : ZMod p) := by
    push_cast
    by_cases h0 : ((a : Int) : ZMod p) = 0
    · rw [h0, hkt]
      exact zero_pow (by omega)
    · rw [hkt, pow_add, pow_one, pow_mul, ZMod.pow_card_sub_one_eq_one h0, one_pow, one_mul]
  exact (ZMod.intCast_eq_intCast_iff _ _ _).mp hz

theorem crt_unique (P Q x m : Int) (hco : IsCoprime P Q)
    (hx1 : x ≡ m [ZMOD P]) (hx2 : x ≡ m [ZMOD Q])
    (hx : 0 ≤ x) (hxlt : x < P * Q) (hm : 0 ≤ m) (hmlt : m < P * Q) : x = m := by
  have d1 : P ∣ (x - m) := (Int.ModEq.dvd hx1.symm)
  have d2 : Q ∣ (x - m) := (Int.ModEq.dvd hx2.symm)
  have d : P * Q ∣ (x - m) := hco.mul_dvd d1 d2
  have habs : |x - m| < P * Q := by
    rw [abs_lt]
    constructor <;> linarith
  have := Int.eq_zero_of_abs_lt_dvd d habs
  linarith

theorem generatedPrime_prime (bits p : Nat) (h : GeneratedPrime bits p) :
    Nat.Prime p := by
  obtain ⟨r, _, _, _, hp, _⟩ := h
  exact hp

theorem generatedPrime_two_of_bits_le_one (bits p : Nat) (hb : bits ≤ 1)
    (h : GeneratedPrime bits p) : p = 2 := by
  obtain ⟨r, hlt, hhi, hlo, hp, hrp, hnone⟩ := h
  have hr1 : r = 1 := by
    have h0 : r % 2 = 1 := by
      have := hlo
      rw [Nat.testBit_to_div_mod] at this
      simpa using this
    interval_cases bits
    · omega
    · omega
  subst hr1
  by_contra hne
  have h2 : 2 < p := by
    have := hp.two_le
    omega
  exact hnone 2 h2 (by omega) Nat.prime_two

theorem generatedPrime_gt_two_of_bits_ge_two (bits p : Nat) (hb : 2 ≤ bits)
    (h : GeneratedPrime bits p) : 2 < p := by
  obtain ⟨r, hlt, hhi, hlo, hp, hrp, hnone⟩ := h
  have hge : 2 ^ (bits - 1) ≤ r := Nat.testBit_implies_ge hhi
  have hodd : r % 2 = 1 := by
    have := hlo
    rw [Nat.testBit_to_div_mod] at this
    simpa using this
  have h2 : 2 ≤ 2 ^ (bits - 1) := by
    calc 2 = 2 ^ 1 := rfl
    _ ≤ 2 ^ (bits - 1) := Nat.pow_le_pow_right (by omega) (by omega)
  omega

theorem generatedPrime_zero_bits_false (p : Nat) (h : GeneratedPrime 0 p) : False := by
  obtain ⟨r, hlt, hhi, hlo, _⟩ := h
  have : r = 0 := by omega
  subst this
  rw [Nat.testBit_to_div_mod] at hlo
  simp at hlo

theorem genSpec_ctxB2 : GenSpec ctxB2 := by
  refine ⟨11, 13, ⟨9, by decide⟩, ⟨11, by decide⟩, ?_⟩
  refine ⟨rfl, rfl, by decide, by decide, rfl, ?_, by decide, rfl, rfl, by decide, by decide⟩
  decide

theorem genSpec_ctxB2dup : GenSpec ctxB2dup := by
  refine ⟨11, 11, ⟨9, by decide⟩, ⟨9, by decide⟩, ?_⟩
  refine ⟨rfl, rfl, by decide, by decide, rfl, ?_, by decide, rfl, rfl, by decide, by decide⟩
  decide

theorem genSpec_ctxB3 : GenSpec ctxB3 := by
  refine ⟨7, 11, ⟨5, by decide⟩, ⟨9, by decide⟩, ?_⟩
  refine ⟨rfl, rfl, by decide, by decide, rfl, ?_, by decide, rfl, rfl, by decide, by decide⟩
  decide

/-- C1: the round-trip `decrypt (encrypt m) = m` fails on the code for
`b = 3`.  `ctxB3` is a context `mp_rsa_generate_keys` can produce
(`GenSpec ctxB3`, at `key_size = 14`): encrypting `m = 8` gives `c = 365`,
but decryption returns `393 ≠ 8`, because the Hensel correction term is
multiplied by `p_power_i = p^(i+1)` (line 186) and then annihilated by the
reduction modulo `p^(i+1)` (line 188), so the lifted residue stays
`m1 = m mod p` instead of becoming `m mod p^(b-1)`.  The same no-op loop
occurs at every key size, in particular the spec's `key_size ≥ 1024`. -/
theorem c1_roundtrip_fails_for_b3 :
    GenSpec ctxB3 ∧ (0 : Int) ≤ 8 ∧ (8 : Int) < ctxB3.n ∧
    mp_rsa_encrypt ctxB3 8 = (0, some 365) ∧
    mp_rsa_decrypt ctxB3 365 = (0, some 393) ∧ (393 : Int) ≠ 8 :=
  ⟨genSpec_ctxB3, by decide, by decide, by decide, by decide, by decide⟩

/-- C3: at the failing state (`ctxB3`, cipher 365, current residue
`M'1 = 1`, iteration `i = 1`) the code's Hensel update `henselIter`
leaves the residue at `1` (the correction is multiplied by `p^(i+1) = 49`
and then reduced modulo `49`), while the update written in the spec —
multiply the correction by `P_i = p^i = 7` — produces `8`, the correct
lift of the plaintext `8` modulo `49`. -/
theorem c3_correction_scale_wrong :
    henselIter ctxB3 365 1 1 = some 1 ∧
    specHenselStep ctxB3 365 1 1 = some 8 ∧ (1 : Int) ≠ 8 :=
  ⟨by decide, by decide, by decide⟩

/-- C7: `mp_rsa_decrypt` ignores the return value of its `mpz_invert`
calls.  Importing the corrupt private key `"2:2:1:1:2"` succeeds and
produces `ctxCorrupt` (`p = q = 2`, so `q⁻¹ mod p_power` does not exist);
decrypting the in-range ciphertext `1` then returns the success code `0`
with an undefined message (modelled as `none`) instead of surfacing an
`InternalInvariantViolated` error. -/
theorem c7_invert_failure_returns_success :
    mp_rsa_import_private_key (mp_rsa_init 1024 2)
        [50, 58, 50, 58, 49, 58, 49, 58, 50] = (0, ctxCorrupt) ∧
    mp_rsa_decrypt ctxCorrupt 1 = (0, none) :=
  ⟨by decide, by decide⟩

/-- C5 counterexample: `ctxB2dup` is a context `mp_rsa_generate_keys`
can produce with `b = 2` (both prime draws came out `11`), and decrypting
the encryption of `m = 42` does not return 42: the CRT inverse
`q⁻¹ mod p_power` does not exist, so the message operand is undefined
(the return code is still 0). -/
theorem c5_counterexample :
    GenSpec ctxB2dup ∧ ctxB2dup.b = 2 ∧
    mp_rsa_encrypt ctxB2dup 42 = (0, some 26) ∧
    mp_rsa_decrypt ctxB2dup 26 ≠ (0, some 42) :=
  ⟨genSpec_ctxB2dup, rfl, by decide, by decide⟩

/-- C6 counterexample: the private key `"5:7:1:3:zz"` has a non-decimal
`b` field, yet `mp_rsa_import_private_key` accepts it (return code 0):
the `b` field is parsed with `atoi`, which returns 0 on `"zz"` and is
never validated. -/
theorem c6_counterexample :
    (mp_rsa_import_private_key (mp_rsa_init 1024 2)
        [53, 58, 55, 58, 49, 58, 51, 58, 122, 122]).1 = 0 := by
  decide

/-- C10 counterexample: the public key `"zz:aa"` takes the parse-error
path (return code -3, not the missing-colon -2), and still leaves the
context unmodified — `mpz_set_str` fails on the first field `"zz"`
without touching `n`, and the short-circuit skips the `e` field.  So the
missing-colon path is not the only failure path that leaves the context
unmodified. -/
theorem c10_counterexample :
    mp_rsa_import_public_key (mp_rsa_init 1024 2) [122, 122, 58, 97, 97]
      = (-3, mp_rsa_init 1024 2) := by
  decide

/-- C5 (amended): for every context `mp_rsa_generate_keys` can produce with
`b = 2` and distinct primes, decryption inverts encryption: the Hensel
loop is skipped (`henselLift` returns `m1` unchanged) and the CRT
recombination recovers every `0 ≤ m < n`. -/
theorem c5_b2_roundtrip (ctx : mp_rsa_ctx) (hg : GenSpec ctx) (hb : ctx.b = 2)
    (hpq : ctx.p ≠ ctx.q) (m : Int) (hm0 : 0 ≤ m) (hmn : m < ctx.n) :
    ∃ c : Int, mp_rsa_encrypt ctx m = (0, some c) ∧
      mp_rsa_decrypt ctx c = (0, some m) := by
  obtain ⟨pN, qN, hgp, hgq, hp, hq, hpp, hn, he, hphi, hgcd, hd, hr1, hr2, hble, hblt⟩ := hg
  -- the two bit-size formulas agree for b = 2
  have hbits : ctx.key_size * 2 / 3 / ctx.b = ctx.key_size / 3 := by
    rw [hb]; omega
  have hPp : pN.Prime := generatedPrime_prime _ _ hgp
  have hQp : qN.Prime := generatedPrime_prime _ _ hgq
  have hne : pN ≠ qN := fun hEq => hpq (by rw [hp, hq, hEq])
  -- distinct primes force the bit size to be at least 2, hence p, q > 2
  have h2p : 2 < pN ∧ 2 < qN := by
    by_cases hbl : ctx.key_size / 3 ≤ 1
    · exfalso
      have e1 : pN = 2 := generatedPrime_two_of_bits_le_one _ _ (hbits ▸ hbl) hgp
      have e2 : qN = 2 := generatedPrime_two_of_bits_le_one _ _ hbl hgq
      exact hne (e1.trans e2.symm)
    · exact ⟨generatedPrime_gt_two_of_bits_ge_two _ _ (by omega) (hbits ▸ hgp),
        generatedPrime_gt_two_of_bits_ge_two _ _ (by omega) hgq⟩
  have hppow : ctx.p_power = ctx.p := by
    rw [hpp, hb, pow_one]
  have hneq : ctx.n = ctx.p * ctx.q := by rw [hn, hppow]
  have hphi' : ctx.phi_n = (ctx.p - 1) * (ctx.q - 1) := by
    rw [hphi, if_neg (by omega)]
  have hppos : (0 : Int) < ctx.p := by
    rw [hp]; exact_mod_cast (by omega : 0 < pN)
  have hqpos : (0 : Int) < ctx.q := by
    rw [hq]; exact_mod_cast (by omega : 0 < qN)
  have hp3 : (2 : Int) < ctx.p := by rw [hp]; exact_mod_cast h2p.1
  have hq3 : (2 : Int) < ctx.q := by rw [hq]; exact_mod_cast h2p.2
  have hnpos : (0 : Int) < ctx.n := by rw [hneq]; positivity
  have hphipos : (0 : Int) < ctx.phi_n := by
    rw [hphi']
    have : (1 : Int) ≤ ctx.p - 1 := by omega
    nlinarith
  -- e·d ≡ 1 (mod φ), hence (mod p-1) and (mod q-1)
  have hdspec := invertOpt_some_spec ctx.e ctx.phi_n ctx.d hphipos hd
  have hed : ctx.e * ctx.d ≡ 1 [ZMOD ctx.phi_n] := hdspec.1
  have hdvd_p : (ctx.p - 1) ∣ ctx.phi_n := by rw [hphi']; exact Dvd.intro _ rfl
  have hdvd_q : (ctx.q - 1) ∣ ctx.phi_n := by rw [hphi']; exact Dvd.intro_left _ rfl
  have hcop : Nat.Coprime pN qN := (Nat.coprime_primes hPp hQp).mpr hne
  -- the single-prime residue congruence, proved for both primes at once
  have key : ∀ (P : Nat) (r : Int), P.Prime → 2 < P → ((P : Int) - 1) ∣ ctx.phi_n →
      r = ctx.d % ((P : Int) - 1) → (P : Int) ∣ ctx.n →
      ∀ c : Int, c = m ^ (65537 : Nat) % ctx.n →
        powm c r (P : Int) ≡ m [ZMOD (P : Int)] := by
    intro P r hPrime hP2 hPdvd hrdef hPn c hc
    have hP1pos : (0 : Int) < (P : Int) - 1 := by
      have : (2 : Int) < P := by exact_mod_cast hP2
      omega
    have hedP : ctx.e * ctx.d ≡ 1 [ZMOD ((P : Int) - 1)] := hed.of_dvd hPdvd
    have hrd : r ≡ ctx.d [ZMOD ((P : Int) - 1)] := by
      rw [hrdef]
      exact Int.emod_emod_of_dvd ctx.d dvd_rfl
    have herP : ctx.e * r ≡ 1 [ZMOD ((P : Int) - 1)] := (hrd.mul_left ctx.e).trans hedP
    have hr0 : 0 ≤ r := by
      rw [hrdef]; exact Int.emod_nonneg _ (by omega)
    have hrne : r ≠ 0 := by
      intro h0
      rw [h0, mul_zero] at herP
      have : ((P : Int) - 1) ∣ 1 - 0 := herP.dvd
      have h1 : ((P : Int) - 1) ≤ 1 := Int.le_of_dvd (by omega) (by simpa using this)
      have : (2 : Int) < P := by exact_mod_cast hP2
      omega
    have hr1' : 1 ≤ r := by omega
    set k : Nat := 65537 * r.toNat with hk
    have hkcast : ((k : Nat) : Int) = 65537 * r := by
      rw [hk]
      push_cast [Int.toNat_of_nonneg hr0]
      ring
    have hk1 : 1 ≤ k := by
      have : 1 ≤ r.toNat := by omega
      calc 1 ≤ 65537 * 1 := by omega
      _ ≤ 65537 * r.toNat := Nat.mul_le_mul_left _ this
    have hcong : (P - 1) ∣ (k - 1) := by
      have hdvdInt : ((P : Int) - 1) ∣ ((k : Int) - 1) := by
        rw [hkcast]
        have h' := herP.dvd
        rw [he] at h'
        exact dvd_sub_comm.mp h'
      have hc1 : ((P : Int) - 1) = ((P - 1 : Nat) : Int) := by
        have : 1 ≤ P := by omega
        push_cast [this]
        ring
      have hc2 : ((k : Int) - 1) = ((k - 1 : Nat) : Int) := by
        push_cast [hk1]
        ring
      rw [hc1, hc2] at hdvdInt
      exact_mod_cast hdvdInt
    have hferm : m ^ k ≡ m [ZMOD (P : Int)] :=
      pow_modEq_self_of_prime P hPrime m k hk1 hcong
    have hcP : c ≡ m ^ (65537 : Nat) [ZMOD (P : Int)] := by
      rw [hc]
      exact Int.emod_emod_of_dvd _ hPn
    calc powm c r (P : Int) = c ^ r.toNat % (P : Int) := powm_eq c r _
      _ ≡ c ^ r.toNat [ZMOD (P : Int)] := Int.emod_emod_of_dvd _ dvd_rfl
      _ ≡ (m ^ (65537 : Nat)) ^ r.toNat [ZMOD (P : Int)] := hcP.pow _
      _ = m ^ k := by rw [← pow_mul]
      _ ≡ m [ZMOD (P : Int)] := hferm
  -- ciphertext
  set c : Int := m ^ (65537 : Nat) % ctx.n with hc
  have hcrange : 0 ≤ c ∧ c < ctx.n :=
    ⟨Int.emod_nonneg _ (ne_of_gt hnpos), Int.emod_lt_of_pos _ hnpos⟩
  have henc : mp_rsa_encrypt ctx m = (0, some c) := by
    unfold mp_rsa_encrypt
    rw [if_neg (not_le.mpr hmn), powm_eq, he]
    rfl
  refine ⟨c, henc, ?_⟩
  -- the two CRT inverses exist
  have hgcd_qp : Int.gcd ctx.q ctx.p_power = 1 := by
    rw [hppow, hp, hq]
    exact_mod_cast hcop.symm
  have hgcd_pq : Int.gcd ctx.p_power ctx.q = 1 := by
    rw [hppow, hp, hq]
    exact_mod_cast hcop
  obtain ⟨qi, hqi⟩ := invertOpt_isSome_of_gcd _ _ hgcd_qp
  obtain ⟨pi, hpi⟩ := invertOpt_isSome_of_gcd _ _ hgcd_pq
  have hqi_spec := invertOpt_some_spec _ _ _ (by rw [hppow]; exact hppos) hqi
  have hpi_spec := invertOpt_some_spec _ _ _ hqpos hpi
  have hqi1 : ctx.q * qi ≡ 1 [ZMOD ctx.p] := by
    have := hqi_spec.1
    rwa [hppow] at this
  have hpi1 : ctx.p * pi ≡ 1 [ZMOD ctx.q] := by
    have := hpi_spec.1
    rwa [hppow] at this
  -- residues
  have hm1 : powm c ctx.r1 ctx.p ≡ m [ZMOD ctx.p] := by
    have := key pN ctx.r1 hPp h2p.1 (by rw [← hp]; exact hdvd_p)
      (by rw [← hp]; exact hr1) (by rw [hneq, hp]; exact Dvd.intro _ rfl) c hc
    rwa [hp]
  have hm2 : powm c ctx.r2 ctx.q ≡ m [ZMOD ctx.q] := by
    have := key qN ctx.r2 hQp h2p.2 (by rw [← hq]; exact hdvd_q)
      (by rw [← hq]; exact hr2) (by rw [hneq, hq]; exact Dvd.intro_left _ rfl) c hc
    rwa [hq]
  -- unfold decrypt
  unfold mp_rsa_decrypt
  rw [if_neg (not_le.mpr hcrange.2)]
  have hlift : henselLift ctx c (powm c ctx.r1 ctx.p) = some (powm c ctx.r1 ctx.p) := by
    unfold henselLift
    rw [if_neg (by omega)]
  simp only [hlift, hqi, hpi]
  -- the recombined value
  set m1 : Int := powm c ctx.r1 ctx.p with hm1def
  set m2 : Int := powm c ctx.r2 ctx.q with hm2def
  have hmsg : (m1 * ctx.q * qi % ctx.n + m2 * ctx.p_power * pi % ctx.n) % ctx.n = m := by
    have hX : (m1 * ctx.q * qi % ctx.n + m2 * ctx.p_power * pi % ctx.n) % ctx.n =
        (m1 * ctx.q * qi + m2 * ctx.p_power * pi) % ctx.n := by
      exact (Int.add_emod _ _ _).symm
    rw [hX, hppow]
    set X : Int := m1 * ctx.q * qi + m2 * ctx.p * pi with hXdef
    have hXp : X ≡ m [ZMOD ctx.p] := by
      have t1 : m1 * ctx.q * qi ≡ m [ZMOD ctx.p] := by
        have e1 : m1 * ctx.q * qi = m1 * (ctx.q * qi) := by ring
        rw [e1]
        calc m1 * (ctx.q * qi) ≡ m * (ctx.q * qi) [ZMOD ctx.p] := hm1.mul_right _
          _ ≡ m * 1 [ZMOD ctx.p] := hqi1.mul_left m
          _ = m := mul_one m
      have t2 : m2 * ctx.p * pi ≡ 0 [ZMOD ctx.p] := by
        have : ctx.p ∣ m2 * ctx.p * pi := ⟨m2 * pi, by ring⟩
        exact (Int.modEq_zero_iff_dvd).mpr this
      have := t1.add t2
      rwa [add_zero] at this
    have hXq : X ≡ m [ZMOD ctx.q] := by
      have t1 : m1 * ctx.q * qi ≡ 0 [ZMOD ctx.q] := by
        have : ctx.q ∣ m1 * ctx.q * qi := ⟨m1 * qi, by ring⟩
        exact (Int.modEq_zero_iff_dvd).mpr this
      have t2 : m2 * ctx.p * pi ≡ m [ZMOD ctx.q] := by
        have e1 : m2 * ctx.p * pi = m2 * (ctx.p * pi) := by ring
        rw [e1]
        calc m2 * (ctx.p * pi) ≡ m * (ctx.p * pi) [ZMOD ctx.q] := hm2.mul_right _
          _ ≡ m * 1 [ZMOD ctx.q] := hpi1.mul_left m
          _ = m := mul_one m
      have := t1.add t2
      rwa [zero_add] at this
    have hXn : X % ctx.n ≡ m [ZMOD ctx.p] := by
      have : X % ctx.n ≡ X [ZMOD ctx.p] :=
        Int.emod_emod_of_dvd X (by rw [hneq]; exact Dvd.intro _ rfl)
      exact this.trans hXp
    have hXnq : X % ctx.n ≡ m [ZMOD ctx.q] := by
      have : X % ctx.n ≡ X [ZMOD ctx.q] :=
        Int.emod_emod_of_dvd X (by rw [hneq]; exact Dvd.intro_left _ rfl)
      exact this.trans hXq
    have hcopZ : IsCoprime ctx.p ctx.q := by
      rw [hp, hq]
      exact Int.isCoprime_iff_gcd_eq_one.mpr (by exact_mod_cast hcop)
    have := crt_unique ctx.p ctx.q (X % ctx.n) m hcopZ hXn hXnq
      (Int.emod_nonneg _ (ne_of_gt hnpos)) (by rw [← hneq]; exact Int.emod_lt_of_pos _ hnpos)
      hm0 (by rw [← hneq]; exact hmn)
    exact this
  rw [hmsg]

/-- Witness for `c5_b2_roundtrip` at the generated context `ctxB2`
(`p = 11`, `q = 13`) and `m = 42`. -/
theorem c5_b2_roundtrip_witness :
    GenSpec ctxB2 ∧ ctxB2.b = 2 ∧ ctxB2.p ≠ ctxB2.q ∧
    (0 : Int) ≤ 42 ∧ (42 : Int) < ctxB2.n ∧
    ∃ c : Int, mp_rsa_encrypt ctxB2 42 = (0, some c) ∧
      mp_rsa_decrypt ctxB2 c = (0, some 42) :=
  ⟨genSpec_ctxB2, rfl, by decide, by decide, by decide,
    c5_b2_roundtrip ctxB2 genSpec_ctxB2 rfl (by decide) 42 (by decide) (by decide)⟩

theorem hexDigitOf_range (d : Nat) (hd : d < 16) :
    (48 ≤ hexDigitOf d ∧ hexDigitOf d ≤ 57) ∨
    (97 ≤ hexDigitOf d ∧ hexDigitOf d ≤ 102) := by
  unfold hexDigitOf
  by_cases h : d < 10
  · rw [if_pos h]; omega
  · rw [if_neg h]; omega

theorem hexVal_hexDigitOf (d : Nat) (hd : d < 16) :
    isHexB (hexDigitOf d) = true ∧ hexVal (hexDigitOf d) = d := by
  unfold isHexB hexVal hexDigitOf
  by_cases h : d < 10
  · rw [if_pos h]
    constructor
    · simp only [Bool.or_eq_true, decide_eq_true_eq, Bool.and_eq_true]
      omega
    · rw [if_pos (by omega)]
      omega
  · rw [if_neg h]
    constructor
    · simp only [Bool.or_eq_true, decide_eq_true_eq, Bool.and_eq_true]
      omega
    · rw [if_neg (by omega), if_pos (by omega)]
      omega

theorem toHexNat_mem (n : Nat) :
    ∀ c ∈ toHexNat n, (48 ≤ c ∧ c ≤ 57) ∨ (97 ≤ c ∧ c ≤ 102) := by
  induction n using Nat.strong_induction_on with
  | _ n ih =>
    intro c hc
    rw [toHexNat] at hc
    by_cases h : n < 16
    · rw [dif_pos h] at hc
      simp only [List.mem_singleton] at hc
      subst hc
      exact hexDigitOf_range n h
    · rw [dif_neg h] at hc
      rw [List.mem_append] at hc
      rcases hc with h1 | h1
      · exact ih (n / 16) (Nat.div_lt_self (by omega) (by omega)) c h1
      · simp only [List.mem_singleton] at h1
        subst h1
        exact hexDigitOf_range (n % 16) (Nat.mod_lt _ (by omega))

theorem toHexNat_ne_nil (n : Nat) : toHexNat n ≠ [] := by
  rw [toHexNat]
  by_cases h : n < 16
  · rw [dif_pos h]; simp
  · rw [dif_neg h]; simp

theorem toDecNat_mem (n : Nat) : ∀ c ∈ toDecNat n, 48 ≤ c ∧ c ≤ 57 := by
  induction n using Nat.strong_induction_on with
  | _ n ih =>
    intro c hc
    rw [toDecNat] at hc
    by_cases h : n < 10
    · rw [dif_pos h] at hc
      simp only [List.mem_singleton] at hc
      omega
    · rw [dif_neg h] at hc
      rw [List.mem_append] at hc
      rcases hc with h1 | h1
      · exact ih (n / 10) (Nat.div_lt_self (by omega) (by omega)) c h1
      · simp only [List.mem_singleton] at h1
        have := Nat.mod_lt n (show 0 < 10 by omega)
        omega

theorem hexDigitsVal_toHexNat (n : Nat) :
    ∀ a : Nat, (toHexNat n).foldl
      (fun acc c => acc.bind fun x =>
        if isHexB c then some (16 * x + hexVal c) else none) (some a) =
      some (a * 16 ^ (toHexNat n).length + n) := by
  induction n using Nat.strong_induction_on with
  | _ n ih =>
    intro a
    rw [toHexNat]
    by_cases h : n < 16
    · rw [dif_pos h]
      have hd := hexVal_hexDigitOf n h
      simp only [List.foldl_cons, List.foldl_nil, Option.some_bind, hd.1, if_true, hd.2,
        List.length_singleton, pow_one]
      exact congrArg some (by omega)
    · rw [dif_neg h]
      rw [List.foldl_append]
      rw [ih (n / 16) (Nat.div_lt_self (by omega) (by omega)) a]
      have hd := hexVal_hexDigitOf (n % 16) (Nat.mod_lt _ (by omega))
      simp only [List.foldl_cons, List.foldl_nil, Option.some_bind, hd.1, if_true, hd.2,
        List.length_append, List.length_singleton]
      have key : 16 * (a * 16 ^ (toHexNat (n / 16)).length + n / 16) + n % 16 =
          a * 16 ^ ((toHexNat (n / 16)).length + 1) + (16 * (n / 16) + n % 16) := by
        ring
      refine congrArg some ?_
      rw [key]
      congr 1
      omega

theorem mpz_set_str16_toHexNat (n : Nat) :
    mpz_set_str16 (toHexNat n) = some (n : Int) := by
  unfold mpz_set_str16
  have hfil : (toHexNat n).filter (fun c => !(isSpaceB c)) = toHexNat n := by
    rw [List.filter_eq_self]
    intro c hc
    have := toHexNat_mem n c hc
    unfold isSpaceB
    simp only [Bool.not_eq_true', Bool.or_eq_false_iff, decide_eq_false_iff_not,
      Bool.and_eq_false_iff]
    omega
  rw [hfil]
  have hval : hexDigitsVal (toHexNat n) = some n := by
    unfold hexDigitsVal
    have := hexDigitsVal_toHexNat n 0
    simpa using this
  rcases hcons : toHexNat n with _ | ⟨c, cs⟩
  · exact absurd hcons (toHexNat_ne_nil n)
  · have hcmem : c ∈ toHexNat n := by rw [hcons]; exact List.mem_cons_self c cs
    have hrange := toHexNat_mem n c hcmem
    dsimp only
    rw [if_neg (show ¬ c = 45 by omega)]
    rw [← hcons, hval]
    rfl

theorem decFoldl_toDecNat (n : Nat) :
    ∀ a : Nat, (toDecNat n).foldl (fun a c => 10 * a + (c - 48)) a =
      a * 10 ^ (toDecNat n).length + n := by
  induction n using Nat.strong_induction_on with
  | _ n ih =>
    intro a
    rw [toDecNat]
    by_cases h : n < 10
    · rw [dif_pos h]
      simp only [List.foldl_cons, List.foldl_nil, List.length_singleton, pow_one]
      omega
    · rw [dif_neg h]
      rw [List.foldl_append, ih (n / 10) (Nat.div_lt_self (by omega) (by omega)) a]
      simp only [List.foldl_cons, List.foldl_nil, List.length_append, List.length_singleton]
      have key : 10 * (a * 10 ^ (toDecNat (n / 10)).length + n / 10) + (48 + n % 10 - 48) =
          a * 10 ^ ((toDecNat (n / 10)).length + 1) + (10 * (n / 10) + n % 10) := by
        have : 48 + n % 10 - 48 = n % 10 := by omega
        rw [this]
        ring
      rw [key]
      congr 1
      omega

theorem atoiModel_toDecNat (n : Nat) : atoiModel (toDecNat n) = (n : Int) := by
  unfold atoiModel
  have hdigits : atoiDigits (toDecNat n) = n := by
    unfold atoiDigits
    rw [List.takeWhile_eq_self_iff.mpr (by
      intro c hc
      have := toDecNat_mem n c hc
      simp only [Bool.and_eq_true, decide_eq_true_eq]
      omega)]
    have := decFoldl_toDecNat n 0
    simpa using this
  have hne : toDecNat n ≠ [] := by
    rw [toDecNat]
    by_cases h : n < 10
    · rw [dif_pos h]; simp
    · rw [dif_neg h]; simp
  rcases hcons : toDecNat n with _ | ⟨c, cs⟩
  · exact absurd hcons hne
  · have hcmem : c ∈ toDecNat n := by rw [hcons]; exact List.mem_cons_self c cs
    have hrange := toDecNat_mem n c hcmem
    have hdrop : (c :: cs).dropWhile isSpaceB = c :: cs := by
      rw [List.dropWhile_cons]
      have : isSpaceB c = false := by
        unfold isSpaceB
        simp only [Bool.or_eq_false_iff, decide_eq_false_iff_not, Bool.and_eq_false_iff]
        omega
      rw [this]
      simp
    rw [hdrop]
    dsimp only
    rw [if_neg (show ¬ c = 45 by omega), if_neg (show ¬ c = 43 by omega), ← hcons, hdigits]

theorem strchrColon_append (a b : List Nat) (h : ∀ c ∈ a, c ≠ 58) :
    strchrColon (a ++ 58 :: b) = some (a, b) := by
  induction a with
  | nil => simp [strchrColon]
  | cons c cs ihc =>
    have hc : c ≠ 58 := h c (List.mem_cons_self c cs)
    simp only [List.cons_append, strchrColon, if_neg hc, List.append_eq]
    rw [ihc (fun x hx => h x (List.mem_cons_of_mem c hx))]
    rfl

theorem strchrColon_none (s : List Nat) (h : ∀ c ∈ s, c ≠ 58) :
    strchrColon s = none := by
  induction s with
  | nil => rfl
  | cons c cs ihc =>
    have hc : c ≠ 58 := h c (List.mem_cons_self c cs)
    simp only [strchrColon, if_neg hc]
    rw [ihc (fun x hx => h x (List.mem_cons_of_mem c hx))]
    rfl

theorem toHexNat_no_colon (n : Nat) : ∀ c ∈ toHexNat n, c ≠ 58 := by
  intro c hc
  have := toHexNat_mem n c hc
  omega

theorem mpz_get_str16_nonneg (v : Int) (hv : 0 ≤ v) :
    mpz_get_str16 v = toHexNat v.toNat := by
  unfold mpz_get_str16
  rw [if_neg (by omega)]

theorem mpz_set_str16_get_str16 (v : Int) (hv : 0 ≤ v) :
    mpz_set_str16 (mpz_get_str16 v) = some v := by
  rw [mpz_get_str16_nonneg v hv, mpz_set_str16_toHexNat]
  congr 1
  exact Int.toNat_of_nonneg hv

theorem toDecNat_length_le (k : Nat) : ∀ n, n < 10 ^ (k + 1) →
    (toDecNat n).length ≤ k + 1 := by
  induction k with
  | zero =>
    intro n hn
    have h10 : n < 10 := by norm_num at hn; exact hn
    unfold toDecNat
    rw [dif_pos h10]
    simp
  | succ k ih =>
    intro n hn
    by_cases h10 : n < 10
    · unfold toDecNat
      rw [dif_pos h10]
      simp
    · unfold toDecNat
      rw [dif_neg h10]
      rw [List.length_append]
      have hp : (10 : Nat) ^ (k + 2) = 10 ^ (k + 1) * 10 := pow_succ 10 (k + 1)
      have hdiv : n / 10 < 10 ^ (k + 1) := by omega
      have hlen := ih (n / 10) hdiv
      simp only [List.length_cons, List.length_nil]
      omega

theorem export_private_no_trunc (ctx : mp_rsa_ctx) (hp : 0 ≤ ctx.p)
    (hq : 0 ≤ ctx.q) (hr1 : 0 ≤ ctx.r1) (hr2 : 0 ≤ ctx.r2)
    (hb : ctx.b % 4294967296 < 100000000) :
    mp_rsa_export_private_key ctx =
      mpz_get_str16 ctx.p ++ 58 ::
        (mpz_get_str16 ctx.q ++ 58 ::
          (mpz_get_str16 ctx.r1 ++ 58 ::
            (mpz_get_str16 ctx.r2 ++ 58 ::
              toDecNat (ctx.b % 4294967296)))) := by
  unfold mp_rsa_export_private_key
  apply List.take_of_length_le
  have e1 : mpz_get_str16 ctx.p = toHexNat ctx.p.natAbs := by
    unfold mpz_get_str16
    rw [if_neg (by omega)]
    congr 1
    omega
  have e2 : mpz_get_str16 ctx.q = toHexNat ctx.q.natAbs := by
    unfold mpz_get_str16
    rw [if_neg (by omega)]
    congr 1
    omega
  have e3 : mpz_get_str16 ctx.r1 = toHexNat ctx.r1.natAbs := by
    unfold mpz_get_str16
    rw [if_neg (by omega)]
    congr 1
    omega
  have e4 : mpz_get_str16 ctx.r2 = toHexNat ctx.r2.natAbs := by
    unfold mpz_get_str16
    rw [if_neg (by omega)]
    congr 1
    omega
  rw [e1, e2, e3, e4]
  have hd : (toDecNat (ctx.b % 4294967296)).length ≤ 8 := by
    apply toDecNat_length_le 7
    norm_num
    omega
  simp only [List.length_append, List.length_cons, mpz_sizeinbase16]
  omega

theorem private_key_roundtrip (ctx ctx1 : mp_rsa_ctx) (hg : GenSpec ctx)
    (hb8 : ctx.b < 100000000) :
    mp_rsa_import_private_key ctx1 (mp_rsa_export_private_key ctx) =
      (0, { ctx1 with
            p := ctx.p, q := ctx.q, r1 := ctx.r1, r2 := ctx.r2, b := ctx.b,
            p_power := ctx.p_power, n := ctx.n }) := by
  obtain ⟨pN, qN, hgp, hgq, hp, hq, hpp, hn, he, hphi, hgcd, hd, hr1, hr2, hble, hblt⟩ := hg
  have hPp := generatedPrime_prime _ _ hgp
  have hQp := generatedPrime_prime _ _ hgq
  have hp2 : (2 : Int) ≤ ctx.p := by rw [hp]; exact_mod_cast hPp.two_le
  have hq2 : (2 : Int) ≤ ctx.q := by rw [hq]; exact_mod_cast hQp.two_le
  have hp0 : 0 ≤ ctx.p := by omega
  have hq0 : 0 ≤ ctx.q := by omega
  have hr10 : 0 ≤ ctx.r1 := by rw [hr1]; exact Int.emod_nonneg _ (by omega)
  have hr20 : 0 ≤ ctx.r2 := by rw [hr2]; exact Int.emod_nonneg _ (by omega)
  have hb32 : ctx.b % 4294967296 = ctx.b := Nat.mod_eq_of_lt hblt
  rw [export_private_no_trunc ctx hp0 hq0 hr10 hr20 (by omega)]
  unfold mp_rsa_import_private_key
  rw [hb32]
  rw [mpz_get_str16_nonneg ctx.p hp0, mpz_get_str16_nonneg ctx.q hq0,
    mpz_get_str16_nonneg ctx.r1 hr10, mpz_get_str16_nonneg ctx.r2 hr20]
  have hs1 := strchrColon_append (toHexNat ctx.p.toNat)
    (toHexNat ctx.q.toNat ++ 58 :: (toHexNat ctx.r1.toNat ++ 58 ::
      (toHexNat ctx.r2.toNat ++ 58 :: toDecNat ctx.b))) (toHexNat_no_colon _)
  have hs2 := strchrColon_append (toHexNat ctx.q.toNat)
    (toHexNat ctx.r1.toNat ++ 58 :: (toHexNat ctx.r2.toNat ++ 58 :: toDecNat ctx.b))
    (toHexNat_no_colon _)
  have hs3 := strchrColon_append (toHexNat ctx.r1.toNat)
    (toHexNat ctx.r2.toNat ++ 58 :: toDecNat ctx.b) (toHexNat_no_colon _)
  have hs4 := strchrColon_append (toHexNat ctx.r2.toNat) (toDecNat ctx.b)
    (toHexNat_no_colon _)
  have hv1 : mpz_set_str16 (toHexNat ctx.p.toNat) = some ctx.p := by
    rw [mpz_set_str16_toHexNat]
    rw [Int.toNat_of_nonneg hp0]
  have hv2 : mpz_set_str16 (toHexNat ctx.q.toNat) = some ctx.q := by
    rw [mpz_set_str16_toHexNat]
    rw [Int.toNat_of_nonneg hq0]
  have hv3 : mpz_set_str16 (toHexNat ctx.r1.toNat) = some ctx.r1 := by
    rw [mpz_set_str16_toHexNat]
    rw [Int.toNat_of_nonneg hr10]
  have hv4 : mpz_set_str16 (toHexNat ctx.r2.toNat) = some ctx.r2 := by
    rw [mpz_set_str16_toHexNat]
    rw [Int.toNat_of_nonneg hr20]
  simp only [hs1, hs2, hs3, hs4, hv1, hv2, hv3, hv4, atoiModel_toDecNat]
  have hbv : ((ctx.b : Int) % 4294967296).toNat = ctx.b := by
    rw [Int.emod_eq_of_lt (by positivity) (by exact_mod_cast hblt)]
    exact Int.toNat_natCast ctx.b
  rw [hbv]
  have hexp : (ctx.b + 4294967295) % 4294967296 = ctx.b - 1 := by omega
  rw [hexp]
  rw [← hpp, ← hn]

theorem public_key_roundtrip (ctx ctx2 : mp_rsa_ctx) (hg : GenSpec ctx) :
    mp_rsa_import_public_key ctx2 (mp_rsa_export_public_key ctx) =
      (0, { ctx2 with n := ctx.n, e := ctx.e }) := by
  obtain ⟨pN, qN, hgp, hgq, hp, hq, hpp, hn, he, hphi, hgcd, hd, hr1, hr2, hble, hblt⟩ := hg
  have hPp := generatedPrime_prime _ _ hgp
  have hQp := generatedPrime_prime _ _ hgq
  have hp2 : (2 : Int) ≤ ctx.p := by rw [hp]; exact_mod_cast hPp.two_le
  have hq2 : (2 : Int) ≤ ctx.q := by rw [hq]; exact_mod_cast hQp.two_le
  have hn0 : 0 ≤ ctx.n := by
    rw [hn, hpp]
    have h1 : 0 ≤ ctx.p ^ (ctx.b - 1) := by positivity
    nlinarith
  have he0 : 0 ≤ ctx.e := by rw [he]; norm_num
  unfold mp_rsa_export_public_key mp_rsa_import_public_key
  rw [mpz_get_str16_nonneg ctx.n hn0, mpz_get_str16_nonneg ctx.e he0]
  have hs1 := strchrColon_append (toHexNat ctx.n.toNat) (toHexNat ctx.e.toNat)
    (toHexNat_no_colon _)
  have hv1 : mpz_set_str16 (toHexNat ctx.n.toNat) = some ctx.n := by
    rw [mpz_set_str16_toHexNat]
    rw [Int.toNat_of_nonneg hn0]
  have hv2 : mpz_set_str16 (toHexNat ctx.e.toNat) = some ctx.e := by
    rw [mpz_set_str16_toHexNat]
    rw [Int.toNat_of_nonneg he0]
  simp only [hs1, hv1, hv2]

/-- C9: the claimed export/import roundtrip breaks on the `b` field.
`mp_rsa_export_private_key` leaves exactly 8 characters of its `snprintf`
buffer for the decimal `b`, so a context whose serialization-relevant
fields are `p = 11`, `q = 13`, `r1 = 3`, `r2 = 5` and the nine-digit
`b = 10^8` (the only fields the export reads; `b ≥ 10^8` is inside the
generation model's range `2 ≤ b < 2^32`) exports as the truncated
`"b:d:3:5:10000000"`; re-importing it succeeds with rc 0 and restores
`p`, `q`, `r1` and `r2`, but yields `b = 10^7 ≠ 10^8`, so the imported
context does not reproduce the serialized fields.  For `b < 10^8` the
roundtrip is intact (`private_key_roundtrip`, `public_key_roundtrip`). -/
theorem c9_export_truncates_b :
    mp_rsa_export_private_key ctxTrunc =
      [98, 58, 100, 58, 51, 58, 53, 58, 49, 48, 48, 48, 48, 48, 48, 48] ∧
    (mp_rsa_import_private_key (mp_rsa_init 600000000 100000000)
      (mp_rsa_export_private_key ctxTrunc)).1 = 0 ∧
    (mp_rsa_import_private_key (mp_rsa_init 600000000 100000000)
      (mp_rsa_export_private_key ctxTrunc)).2.p = ctxTrunc.p ∧
    (mp_rsa_import_private_key (mp_rsa_init 600000000 100000000)
      (mp_rsa_export_private_key ctxTrunc)).2.q = ctxTrunc.q ∧
    (mp_rsa_import_private_key (mp_rsa_init 600000000 100000000)
      (mp_rsa_export_private_key ctxTrunc)).2.r1 = ctxTrunc.r1 ∧
    (mp_rsa_import_private_key (mp_rsa_init 600000000 100000000)
      (mp_rsa_export_private_key ctxTrunc)).2.r2 = ctxTrunc.r2 ∧
    (mp_rsa_import_private_key (mp_rsa_init 600000000 100000000)
      (mp_rsa_export_private_key ctxTrunc)).2.b = 10000000 ∧
    ctxTrunc.b = 100000000 := by
  have hexp : mp_rsa_export_private_key ctxTrunc =
      [98, 58, 100, 58, 51, 58, 53, 58, 49, 48, 48, 48, 48, 48, 48, 48] := by
    have d1 : toDecNat 1 = [49] := by unfold toDecNat; norm_num
    have d2 : toDecNat 10 = [49, 48] := by unfold toDecNat; norm_num [d1]
    have d3 : toDecNat 100 = [49, 48, 48] := by unfold toDecNat; norm_num [d2]
    have d4 : toDecNat 1000 = [49, 48, 48, 48] := by
      unfold toDecNat; norm_num [d3]
    have d5 : toDecNat 10000 = [49, 48, 48, 48, 48] := by
      unfold toDecNat; norm_num [d4]
    have d6 : toDecNat 100000 = [49, 48, 48, 48, 48, 48] := by
      unfold toDecNat; norm_num [d5]
    have d7 : toDecNat 1000000 = [49, 48, 48, 48, 48, 48, 48] := by
      unfold toDecNat; norm_num [d6]
    have d8 : toDecNat 10000000 = [49, 48, 48, 48, 48, 48, 48, 48] := by
      unfold toDecNat; norm_num [d7]
    have d9 : toDecNat 100000000 = [49, 48, 48, 48, 48, 48, 48, 48, 48] := by
      unfold toDecNat; norm_num [d8]
    have hxb : toHexNat 11 = [98] := by unfold toHexNat; norm_num [hexDigitOf]
    have hxd : toHexNat 13 = [100] := by unfold toHexNat; norm_num [hexDigitOf]
    have hx3 : toHexNat 3 = [51] := by unfold toHexNat; norm_num [hexDigitOf]
    have hx5 : toHexNat 5 = [53] := by unfold toHexNat; norm_num [hexDigitOf]
    unfold mp_rsa_export_private_key mpz_sizeinbase16 mpz_get_str16 ctxTrunc
    norm_num [d9]
    simp only [show (11 : Int).toNat = 11 from rfl,
      show (13 : Int).toNat = 13 from rfl, show (3 : Int).toNat = 3 from rfl,
      show (5 : Int).toNat = 5 from rfl, hxb, hxd, hx3, hx5]
    try decide
  rw [hexp]
  exact ⟨rfl, by decide, by decide, by decide, by decide, by decide,
    by decide, rfl⟩

/-- C6 (amended): import fails with `MalformedKey` exactly on missing
colons (-2) and non-hex digits in the big-integer fields (-3); the `b`
field of the private key is parsed with `atoi` and is never rejected.
The conjuncts: (1) the public key `"deadbeef"` is rejected with -2;
(2) any colon-free public input is rejected with -2; (3) with one colon,
the public import succeeds iff both hex fields parse, else -3;
(4)-(6) private inputs with only 1, 2 or 3 colons are rejected with -2
(in particular a key missing the final `:b` field); (7) with four colons,
the private import succeeds iff the four hex fields `p,q,r1,r2` parse
(the `b` field after the fourth colon is never checked), else -3. -/
theorem c6_import_malformed :
    (mp_rsa_import_public_key (mp_rsa_init 1024 2)
      [100, 101, 97, 100, 98, 101, 101, 102]).1 = -2 ∧
    (∀ (ctx : mp_rsa_ctx) (s : List Nat), (∀ c ∈ s, c ≠ 58) →
      (mp_rsa_import_public_key ctx s).1 = -2) ∧
    (∀ (ctx : mp_rsa_ctx) (f1 f2 : List Nat), (∀ c ∈ f1, c ≠ 58) →
      (mp_rsa_import_public_key ctx (f1 ++ 58 :: f2)).1 =
        (if (mpz_set_str16 f1).isSome ∧ (mpz_set_str16 f2).isSome then 0 else -3)) ∧
    (∀ (ctx : mp_rsa_ctx) (s : List Nat), (∀ c ∈ s, c ≠ 58) →
      (mp_rsa_import_private_key ctx s).1 = -2) ∧
    (∀ (ctx : mp_rsa_ctx) (f1 f2 : List Nat), (∀ c ∈ f1, c ≠ 58) → (∀ c ∈ f2, c ≠ 58) →
      (mp_rsa_import_private_key ctx (f1 ++ 58 :: f2)).1 = -2) ∧
    (∀ (ctx : mp_rsa_ctx) (f1 f2 f3 : List Nat),
      (∀ c ∈ f1, c ≠ 58) → (∀ c ∈ f2, c ≠ 58) → (∀ c ∈ f3, c ≠ 58) →
      (mp_rsa_import_private_key ctx (f1 ++ 58 :: (f2 ++ 58 :: f3))).1 = -2) ∧
    (∀ (ctx : mp_rsa_ctx) (f1 f2 f3 f4 : List Nat),
      (∀ c ∈ f1, c ≠ 58) → (∀ c ∈ f2, c ≠ 58) → (∀ c ∈ f3, c ≠ 58) → (∀ c ∈ f4, c ≠ 58) →
      (mp_rsa_import_private_key ctx (f1 ++ 58 :: (f2 ++ 58 :: (f3 ++ 58 :: f4)))).1 = -2) ∧
    (∀ (ctx : mp_rsa_ctx) (f1 f2 f3 f4 f5 : List Nat),
      (∀ c ∈ f1, c ≠ 58) → (∀ c ∈ f2, c ≠ 58) → (∀ c ∈ f3, c ≠ 58) → (∀ c ∈ f4, c ≠ 58) →
      (mp_rsa_import_private_key ctx
          (f1 ++ 58 :: (f2 ++ 58 :: (f3 ++ 58 :: (f4 ++ 58 :: f5))))).1 =
        (if (mpz_set_str16 f1).isSome ∧ (mpz_set_str16 f2).isSome ∧
            (mpz_set_str16 f3).isSome ∧ (mpz_set_str16 f4).isSome then 0 else -3)) := by
  refine ⟨by decide, ?_, ?_, ?_, ?_, ?_, ?_, ?_⟩
  · intro ctx s hs
    simp only [mp_rsa_import_public_key, strchrColon_none s hs]
  · intro ctx f1 f2 h1
    simp only [mp_rsa_import_public_key, strchrColon_append f1 f2 h1]
    rcases hv1 : mpz_set_str16 f1 with _ | v1
    · simp [hv1]
    · rcases hv2 : mpz_set_str16 f2 with _ | v2
      · simp [hv1, hv2]
      · simp [hv1, hv2]
  · intro ctx s hs
    simp only [mp_rsa_import_private_key, strchrColon_none s hs]
  · intro ctx f1 f2 h1 h2
    simp only [mp_rsa_import_private_key, strchrColon_append f1 f2 h1,
      strchrColon_none f2 h2]
  · intro ctx f1 f2 f3 h1 h2 h3
    simp only [mp_rsa_import_private_key,
      strchrColon_append f1 (f2 ++ 58 :: f3) h1,
      strchrColon_append f2 f3 h2, strchrColon_none f3 h3]
  · intro ctx f1 f2 f3 f4 h1 h2 h3 h4
    simp only [mp_rsa_import_private_key,
      strchrColon_append f1 (f2 ++ 58 :: (f3 ++ 58 :: f4)) h1,
      strchrColon_append f2 (f3 ++ 58 :: f4) h2,
      strchrColon_append f3 f4 h3, strchrColon_none f4 h4]
  · intro ctx f1 f2 f3 f4 f5 h1 h2 h3 h4
    simp only [mp_rsa_import_private_key,
      strchrColon_append f1 (f2 ++ 58 :: (f3 ++ 58 :: (f4 ++ 58 :: f5))) h1,
      strchrColon_append f2 (f3 ++ 58 :: (f4 ++ 58 :: f5)) h2,
      strchrColon_append f3 (f4 ++ 58 :: f5) h3,
      strchrColon_append f4 f5 h4]
    rcases hv1 : mpz_set_str16 f1 with _ | v1
    · simp [hv1]
    · rcases hv2 : mpz_set_str16 f2 with _ | v2
      · simp [hv1, hv2]
      · rcases hv3 : mpz_set_str16 f3 with _ | v3
        · simp [hv1, hv2, hv3]
        · rcases hv4 : mpz_set_str16 f4 with _ | v4
          · simp [hv1, hv2, hv3, hv4]
          · simp [hv1, hv2, hv3, hv4]

/-- Witness for `c6_import_malformed`: each quantified conjunct applied at
a concrete malformed (or well-formed) input. -/
theorem c6_import_malformed_witness :
    (mp_rsa_import_public_key (mp_rsa_init 1024 2)
      [100, 101, 97, 100, 98, 101, 101, 102]).1 = -2 ∧
    (mp_rsa_import_public_key (mp_rsa_init 1024 2) [97, 97]).1 = -2 ∧
    (mp_rsa_import_public_key (mp_rsa_init 1024 2) ([97] ++ 58 :: [122])).1 =
      (if (mpz_set_str16 [97]).isSome ∧ (mpz_set_str16 [122]).isSome then 0 else -3) ∧
    (mp_rsa_import_private_key (mp_rsa_init 1024 2) [53]).1 = -2 ∧
    (mp_rsa_import_private_key (mp_rsa_init 1024 2) ([53] ++ 58 :: [55])).1 = -2 ∧
    (mp_rsa_import_private_key (mp_rsa_init 1024 2)
      ([53] ++ 58 :: ([55] ++ 58 :: [49]))).1 = -2 ∧
    (mp_rsa_import_private_key (mp_rsa_init 1024 2)
      ([53] ++ 58 :: ([55] ++ 58 :: ([49] ++ 58 :: [51])))).1 = -2 ∧
    (mp_rsa_import_private_key (mp_rsa_init 1024 2)
      ([53] ++ 58 :: ([55] ++ 58 :: ([49] ++ 58 :: ([122] ++ 58 :: [50]))))).1 =
      (if (mpz_set_str16 [53]).isSome ∧ (mpz_set_str16 [55]).isSome ∧
          (mpz_set_str16 [49]).isSome ∧ (mpz_set_str16 [122]).isSome then 0 else -3) :=
  ⟨c6_import_malformed.1,
   c6_import_malformed.2.1 (mp_rsa_init 1024 2) [97, 97] (by decide),
   c6_import_malformed.2.2.1 (mp_rsa_init 1024 2) [97] [122] (by decide),
   c6_import_malformed.2.2.2.1 (mp_rsa_init 1024 2) [53] (by decide),
   c6_import_malformed.2.2.2.2.1 (mp_rsa_init 1024 2) [53] [55] (by decide) (by decide),
   c6_import_malformed.2.2.2.2.2.1 (mp_rsa_init 1024 2) [53] [55] [49]
     (by decide) (by decide) (by decide),
   c6_import_malformed.2.2.2.2.2.2.1 (mp_rsa_init 1024 2) [53] [55] [49] [51]
     (by decide) (by decide) (by decide) (by decide),
   c6_import_malformed.2.2.2.2.2.2.2 (mp_rsa_init 1024 2) [53] [55] [49] [122] [50]
     (by decide) (by decide) (by decide) (by decide)⟩

/-- C10 (amended): key import is not atomic on parse errors — a later
field's failure is reported after earlier fields were already overwritten
(`n` for the public import on `"aa:zz"`; `p`, `q`, `r1` for the
private import on `"5:7:1:zz:2"`).  The failure paths that leave the context
unmodified are the missing-colon paths and a parse failure in the first
field (the short-circuit stops before anything was written). -/
theorem c10_import_not_atomic :
    (mp_rsa_import_public_key (mp_rsa_init 1024 2) [97, 97, 58, 122, 122] =
      (-3, { mp_rsa_init 1024 2 with n := 170 }) ∧ (mp_rsa_init 1024 2).n ≠ 170) ∧
    (mp_rsa_import_private_key (mp_rsa_init 1024 2)
        [53, 58, 55, 58, 49, 58, 122, 122, 58, 50] =
      (-3, { mp_rsa_init 1024 2 with p := 5, q := 7, r1 := 1 }) ∧
      (mp_rsa_init 1024 2).p ≠ 5 ∧ (mp_rsa_init 1024 2).q ≠ 7 ∧
      (mp_rsa_init 1024 2).r1 ≠ 1) ∧
    (∀ (ctx : mp_rsa_ctx) (s : List Nat), (∀ c ∈ s, c ≠ 58) →
      mp_rsa_import_public_key ctx s = (-2, ctx)) ∧
    (∀ (ctx : mp_rsa_ctx) (s : List Nat), (∀ c ∈ s, c ≠ 58) →
      mp_rsa_import_private_key ctx s = (-2, ctx)) ∧
    (∀ (ctx : mp_rsa_ctx) (f1 f2 f3 f4 : List Nat),
      (∀ c ∈ f1, c ≠ 58) → (∀ c ∈ f2, c ≠ 58) → (∀ c ∈ f3, c ≠ 58) → (∀ c ∈ f4, c ≠ 58) →
      mp_rsa_import_private_key ctx (f1 ++ 58 :: (f2 ++ 58 :: (f3 ++ 58 :: f4))) =
        (-2, ctx)) := by
  refine ⟨⟨by decide, by decide⟩, ⟨by decide, by decide, by decide, by decide⟩, ?_, ?_, ?_⟩
  · intro ctx s hs
    simp only [mp_rsa_import_public_key, strchrColon_none s hs]
  · intro ctx s hs
    simp only [mp_rsa_import_private_key, strchrColon_none s hs]
  · intro ctx f1 f2 f3 f4 h1 h2 h3 h4
    simp only [mp_rsa_import_private_key,
      strchrColon_append f1 (f2 ++ 58 :: (f3 ++ 58 :: f4)) h1,
      strchrColon_append f2 (f3 ++ 58 :: f4) h2,
      strchrColon_append f3 f4 h3, strchrColon_none f4 h4]

/-- Witness for `c10_import_not_atomic` at concrete inputs. -/
theorem c10_import_not_atomic_witness :
    mp_rsa_import_public_key (mp_rsa_init 1024 2) [97, 97] = (-2, mp_rsa_init 1024 2) ∧
    mp_rsa_import_private_key (mp_rsa_init 1024 2) [53, 55] = (-2, mp_rsa_init 1024 2) ∧
    mp_rsa_import_private_key (mp_rsa_init 1024 2)
      ([53] ++ 58 :: ([55] ++ 58 :: ([49] ++ 58 :: [51]))) = (-2, mp_rsa_init 1024 2) :=
  ⟨c10_import_not_atomic.2.2.1 (mp_rsa_init 1024 2) [97, 97] (by decide),
   c10_import_not_atomic.2.2.2.1 (mp_rsa_init 1024 2) [53, 55] (by decide),
   c10_import_not_atomic.2.2.2.2 (mp_rsa_init 1024 2) [53] [55] [49] [51]
     (by decide) (by decide) (by decide) (by decide)⟩

set_option maxRecDepth 40000 in
/-- C4: the Twofish-128 known-answer test.  With the all-zero 16-byte key,
encrypting the all-zero block yields
`9F 58 9F 5C F6 12 2C 32 B6 BF EC 2F 2A E8 C3 5A`, and decrypting that
ciphertext under the same context returns sixteen zero bytes. -/
theorem c4_twofish_kat128 :
    twofish_encrypt (twofish_set_key (List.replicate 16 0) 128)
        (List.replicate 16 0) =
      [0x9F, 0x58, 0x9F, 0x5C, 0xF6, 0x12, 0x2C, 0x32,
       0xB6, 0xBF, 0xEC, 0x2F, 0x2A, 0xE8, 0xC3, 0x5A] ∧
    twofish_decrypt (twofish_set_key (List.replicate 16 0) 128)
        [0x9F, 0x58, 0x9F, 0x5C, 0xF6, 0x12, 0x2C, 0x32,
         0xB6, 0xBF, 0xEC, 0x2F, 0x2A, 0xE8, 0xC3, 0x5A] =
      List.replicate 16 0 :=
  ⟨by decide, by decide⟩

theorem two_mul_lor_one (a : Nat) : 2 * a ||| 1 = 2 * a + 1 := by
  apply Nat.eq_of_testBit_eq
  intro i
  cases i with
  | zero =>
    have h1 : (2 * a).testBit 0 = false := by
      rw [Nat.testBit_to_div_mod, pow_zero, Nat.div_one]
      exact decide_eq_false_iff_not.mpr (by omega)
    have h3 : (2 * a + 1).testBit 0 = true := by
      rw [Nat.testBit_to_div_mod, pow_zero, Nat.div_one]
      exact decide_eq_true (by omega)
    rw [Nat.testBit_lor, h1, h3]
    rfl
  | succ i =>
    have h2 : (1 : Nat).testBit (i + 1) = false :=
      Nat.testBit_lt_two_pow (Nat.one_lt_two_pow (by omega))
    rw [Nat.testBit_lor, h2, Bool.or_false, Nat.testBit_succ, Nat.testBit_succ]
    have e1 : 2 * a / 2 = a := by omega
    have e2 : (2 * a + 1) / 2 = a := by omega
    rw [e1, e2]

theorem lor_two_pow_of_lt (a k : Nat) (ha : a < 2 ^ k) : a ||| 2 ^ k = a + 2 ^ k := by
  apply Nat.eq_of_testBit_eq
  intro i
  rw [Nat.testBit_lor]
  rcases Nat.lt_trichotomy i k with hik | hik | hik
  · rw [Nat.testBit_two_pow_of_ne (by omega), Bool.or_false]
    rw [Nat.testBit_to_div_mod, Nat.testBit_to_div_mod]
    have hsplit : 2 ^ k = 2 * 2 ^ (k - i - 1) * 2 ^ i := by
      have h1 : (2 : Nat) * 2 ^ (k - i - 1) * 2 ^ i = 2 ^ (1 + (k - i - 1) + i) := by
        rw [pow_add, pow_add, pow_one]
      rw [h1]
      congr 1
      omega
    have hdiv : (a + 2 ^ k) / 2 ^ i = a / 2 ^ i + 2 * 2 ^ (k - i - 1) := by
      rw [hsplit, Nat.add_mul_div_right _ _ (by positivity : (0:Nat) < 2 ^ i)]
    rw [hdiv]
    have heven : (a / 2 ^ i + 2 * 2 ^ (k - i - 1)) % 2 = a / 2 ^ i % 2 := by omega
    rw [heven]
  · subst hik
    rw [Nat.testBit_lt_two_pow ha, Nat.testBit_two_pow_self, Bool.false_or]
    rw [Nat.testBit_to_div_mod]
    rw [Nat.add_div_right _ (by positivity : (0:Nat) < 2 ^ i), Nat.div_eq_of_lt ha]
    rfl
  · have h1 : a.testBit i = false :=
      Nat.testBit_lt_two_pow (lt_of_lt_of_le ha (Nat.pow_le_pow_right (by omega) (by omega)))
    have h2 : (2 ^ k).testBit i = false := Nat.testBit_two_pow_of_ne (by omega)
    have h3 : (a + 2 ^ k).testBit i = false := by
      apply Nat.testBit_lt_two_pow
      calc a + 2 ^ k < 2 ^ k + 2 ^ k := by omega
        _ = 2 ^ (k + 1) := by ring
        _ ≤ 2 ^ i := Nat.pow_le_pow_right (by omega) (by omega)
    rw [h1, h2, h3]
    rfl

theorem lor_mod_two_pow (a bb n : Nat) :
    (a ||| bb) % 2 ^ n = a % 2 ^ n ||| bb % 2 ^ n := by
  apply Nat.eq_of_testBit_eq
  intro i
  rw [Nat.testBit_mod_two_pow, Nat.testBit_lor, Nat.testBit_lor,
    Nat.testBit_mod_two_pow, Nat.testBit_mod_two_pow]
  by_cases hi : i < n <;> simp [hi]

theorem ROL_one_eq (x : Nat) (hx : x < 4294967296) :
    ROL x 1 = 2 * x % 4294967296 + x / 2147483648 := by
  unfold ROL
  rw [Nat.mod_eq_of_lt hx]
  rw [Nat.shiftLeft_eq, Nat.shiftRight_eq_div_pow]
  have e1 : x * 2 ^ (1 % 32) = 2 * x := by norm_num; ring
  have e2 : (32 : Nat) - 1 % 32 = 31 := by norm_num
  rw [e1, e2]
  have e3 : x / 2 ^ 31 = x / 2147483648 := by norm_num
  rw [e3]
  have htop : x / 2147483648 = 0 ∨ x / 2147483648 = 1 := by omega
  rcases htop with h0 | h1
  · rw [h0, add_zero]
    simp
  · rw [h1, two_mul_lor_one]
    omega

theorem ROR_one_eq (x : Nat) (hx : x < 4294967296) :
    ROR x 1 = x / 2 + x % 2 * 2147483648 := by
  unfold ROR
  rw [Nat.mod_eq_of_lt hx]
  rw [Nat.shiftLeft_eq, Nat.shiftRight_eq_div_pow]
  have e1 : (2 : Nat) ^ (1 % 32) = 2 := by norm_num
  have e2 : (32 : Nat) - 1 % 32 = 31 := by norm_num
  rw [e1, e2]
  have e4 : (4294967296 : Nat) = 2 ^ 32 := by norm_num
  rw [e4, lor_mod_two_pow]
  have e5 : x / 2 % 2 ^ 32 = x / 2 := Nat.mod_eq_of_lt (by omega)
  have e6 : x * 2 ^ 31 % 2 ^ 32 = x % 2 * 2 ^ 31 := by
    have h1 : x * 2 ^ 31 = (x % 2) * 2 ^ 31 + (x / 2) * 2 ^ 32 := by
      have : (2:Nat) ^ 32 = 2 ^ 31 * 2 := by norm_num
      rw [this]
      have hx2 : x = x % 2 + 2 * (x / 2) := by omega
      calc x * 2 ^ 31 = (x % 2 + 2 * (x / 2)) * 2 ^ 31 := by rw [← hx2]
        _ = x % 2 * 2 ^ 31 + x / 2 * (2 ^ 31 * 2) := by ring
    rw [h1]
    rw [Nat.add_mul_mod_self_right]
    exact Nat.mod_eq_of_lt (by
      have : x % 2 ≤ 1 := by omega
      calc x % 2 * 2 ^ 31 ≤ 1 * 2 ^ 31 := Nat.mul_le_mul_right _ this
        _ < 2 ^ 32 := by norm_num)
  rw [e5, e6]
  have hpar : x % 2 = 0 ∨ x % 2 = 1 := by omega
  rcases hpar with h0 | h1
  · rw [h0]
    simp
  · rw [h1, one_mul]
    have : (2147483648 : Nat) = 2 ^ 31 := by norm_num
    rw [this, lor_two_pow_of_lt _ _ (by omega)]
    omega

theorem ROR_ROL_one (x : Nat) (hx : x < 4294967296) : ROR (ROL x 1) 1 = x := by
  rw [ROL_one_eq x hx]
  rcases (by omega : x / 2147483648 = 0 ∨ x / 2147483648 = 1) with h0 | h1
  · have h2 : 2 * x % 4294967296 = 2 * x := Nat.mod_eq_of_lt (by omega)
    rw [h0, h2, add_zero, ROR_one_eq _ (by omega)]
    omega
  · have h2 : 2 * x % 4294967296 = 2 * x - 4294967296 := by omega
    rw [h1, h2, ROR_one_eq _ (by omega)]
    omega

theorem ROL_ROR_one (x : Nat) (hx : x < 4294967296) : ROL (ROR x 1) 1 = x := by
  rw [ROR_one_eq x hx]
  rcases (by omega : x % 2 = 0 ∨ x % 2 = 1) with h0 | h1
  · have e1 : 2 * (x / 2) % 4294967296 = 2 * (x / 2) := Nat.mod_eq_of_lt (by omega)
    rw [h0, zero_mul, add_zero, ROL_one_eq _ (by omega), e1]
    omega
  · have e1 : 2 * (x / 2 + 2147483648) % 4294967296 = x - 1 := by omega
    have e2 : (x / 2 + 2147483648) / 2147483648 = 1 := by omega
    rw [h1, one_mul, ROL_one_eq _ (by omega), e1, e2]
    omega

theorem ROL_lt (x n : Nat) : ROL x n < 4294967296 := by
  unfold ROL
  exact Nat.mod_lt _ (by omega)

theorem ROR_lt (x n : Nat) : ROR x n < 4294967296 := by
  unfold ROR
  exact Nat.mod_lt _ (by omega)

theorem xor_lt_w32 (a bb : Nat) (ha : a < 4294967296) (hb : bb < 4294967296) :
    a ^^^ bb < 4294967296 := by
  have h1 : (4294967296 : Nat) = 2 ^ 32 := by norm_num
  rw [h1] at ha hb ⊢
  exact Nat.xor_lt_two_pow ha hb

theorem xor_cancel_right (a bb : Nat) : (a ^^^ bb) ^^^ bb = a := by
  rw [Nat.xor_assoc, Nat.xor_self, Nat.xor_zero]

theorem xor_cancel_left (a bb : Nat) : a ^^^ (bb ^^^ a) = bb := by
  rw [Nat.xor_comm bb a, ← Nat.xor_assoc, Nat.xor_self, Nat.zero_xor]

theorem swapHalves_swapHalves (s : St) : swapHalves (swapHalves s) = s := rfl

theorem dRound_eRound (ctx : TWOFISH_CTX) (r : Nat) (s : St)
    (h2 : s.r2 < 4294967296) (h3 : s.r3 < 4294967296) :
    dRound ctx r (eRound ctx r s) = s := by
  unfold eRound dRound
  dsimp only
  have hsum1 : (fkh ctx (ROL s.r1 8) + fkh ctx s.r0 + ctx.K (2 * r + 8)) % 4294967296 =
      (fkh ctx s.r0 + fkh ctx (ROL s.r1 8) + ctx.K (2 * r + 8)) % 4294967296 := by
    congr 1
    ring
  have hsum2 : (2 * fkh ctx (ROL s.r1 8) + fkh ctx s.r0 + ctx.K (2 * r + 9)) % 4294967296 =
      (fkh ctx s.r0 + 2 * fkh ctx (ROL s.r1 8) + ctx.K (2 * r + 9)) % 4294967296 := by
    congr 1
    ring
  have hc : ROL (ROR (s.r2 ^^^
      ((fkh ctx (ROL s.r1 8) + fkh ctx s.r0 + ctx.K (2 * r + 8)) % 4294967296)) 1) 1 ^^^
        ((fkh ctx s.r0 + fkh ctx (ROL s.r1 8) + ctx.K (2 * r + 8)) % 4294967296) = s.r2 := by
    rw [ROL_ROR_one _ (xor_lt_w32 _ _ h2 (Nat.mod_lt _ (by omega))), hsum1,
      xor_cancel_right]
  have hd : ROR ((ROL s.r3 1 ^^^
      ((2 * fkh ctx (ROL s.r1 8) + fkh ctx s.r0 + ctx.K (2 * r + 9)) % 4294967296)) ^^^
        ((fkh ctx s.r0 + 2 * fkh ctx (ROL s.r1 8) + ctx.K (2 * r + 9)) % 4294967296)) 1
      = s.r3 := by
    rw [hsum2, xor_cancel_right, ROR_ROL_one _ h3]
  conv_rhs => rw [show s = St.mk s.r0 s.r1 s.r2 s.r3 from rfl]
  rw [St.mk.injEq]
  exact ⟨rfl, rfl, hc, hd⟩

theorem eRound_bounded (ctx : TWOFISH_CTX) (r : Nat) (s : St)
    (hs : s.r0 < 4294967296 ∧ s.r1 < 4294967296 ∧ s.r2 < 4294967296 ∧ s.r3 < 4294967296) :
    (eRound ctx r s).r0 < 4294967296 ∧ (eRound ctx r s).r1 < 4294967296 ∧
    (eRound ctx r s).r2 < 4294967296 ∧ (eRound ctx r s).r3 < 4294967296 := by
  unfold eRound
  dsimp only
  exact ⟨hs.1, hs.2.1, ROR_lt _ _,
    xor_lt_w32 _ _ (ROL_lt _ _) (Nat.mod_lt _ (by omega))⟩

theorem eRoundS_bounded (ctx : TWOFISH_CTX) (r : Nat) (s : St)
    (hs : s.r0 < 4294967296 ∧ s.r1 < 4294967296 ∧ s.r2 < 4294967296 ∧ s.r3 < 4294967296) :
    (eRoundS ctx r s).r0 < 4294967296 ∧ (eRoundS ctx r s).r1 < 4294967296 ∧
    (eRoundS ctx r s).r2 < 4294967296 ∧ (eRoundS ctx r s).r3 < 4294967296 := by
  unfold eRoundS swapHalves
  dsimp only
  have := eRound_bounded ctx r (swapHalves s) ⟨hs.2.2.1, hs.2.2.2, hs.1, hs.2.1⟩
  exact ⟨this.2.2.1, this.2.2.2, this.1, this.2.1⟩

theorem cancel_A (ctx : TWOFISH_CTX) (r : Nat) (s : St)
    (h0 : s.r0 < 4294967296) (h1 : s.r1 < 4294967296) :
    dRound ctx r (swapHalves (eRoundS ctx r s)) = swapHalves s := by
  unfold eRoundS
  rw [swapHalves_swapHalves]
  exact dRound_eRound ctx r (swapHalves s) h0 h1

theorem cancel_B (ctx : TWOFISH_CTX) (r : Nat) (s : St)
    (h2 : s.r2 < 4294967296) (h3 : s.r3 < 4294967296) :
    dRoundS ctx r (swapHalves (eRound ctx r s)) = swapHalves s := by
  unfold dRoundS
  rw [swapHalves_swapHalves, dRound_eRound ctx r s h2 h3]

theorem decCore_encCore (ctx : TWOFISH_CTX) (s0 : St)
    (hb : s0.r0 < 4294967296 ∧ s0.r1 < 4294967296 ∧ s0.r2 < 4294967296 ∧
      s0.r3 < 4294967296) :
    decCore ctx (swapHalves (encCore ctx s0)) = swapHalves s0 := by
  have hb0 := hb
  have hb1 := eRound_bounded ctx 0 s0 hb0
  have hb2 := eRoundS_bounded ctx 1 (eRound ctx 0 s0) hb1
  have hb3 := eRound_bounded ctx 2 (eRoundS ctx 1 (eRound ctx 0 s0)) hb2
  have hb4 := eRoundS_bounded ctx 3 (eRound ctx 2 (eRoundS ctx 1 (eRound ctx 0 s0))) hb3
  have hb5 := eRound_bounded ctx 4 (eRoundS ctx 3 (eRound ctx 2 (eRoundS ctx 1 (eRound ctx 0 s0)))) hb4
  have hb6 := eRoundS_bounded ctx 5 (eRound ctx 4 (eRoundS ctx 3 (eRound ctx 2 (eRoundS ctx 1 (eRound ctx 0 s0))))) hb5
  have hb7 := eRound_bounded ctx 6 (eRoundS ctx 5 (eRound ctx 4 (eRoundS ctx 3 (eRound ctx 2 (eRoundS ctx 1 (eRound ctx 0 s0)))))) hb6
  have hb8 := eRoundS_bounded ctx 7 (eRound ctx 6 (eRoundS ctx 5 (eRound ctx 4 (eRoundS ctx 3 (eRound ctx 2 (eRoundS ctx 1 (eRound ctx 0 s0))))))) hb7
  have hb9 := eRound_bounded ctx 8 (eRoundS ctx 7 (eRound ctx 6 (eRoundS ctx 5 (eRound ctx 4 (eRoundS ctx 3 (eRound ctx 2 (eRoundS ctx 1 (eRound ctx 0 s0)))))))) hb8
  have hb10 := eRoundS_bounded ctx 9 (eRound ctx 8 (eRoundS ctx 7 (eRound ctx 6 (eRoundS ctx 5 (eRound ctx 4 (eRoundS ctx 3 (eRound ctx 2 (eRoundS ctx 1 (eRound ctx 0 s0))))))))) hb9
  have hb11 := eRound_bounded ctx 10 (eRoundS ctx 9 (eRound ctx 8 (eRoundS ctx 7 (eRound ctx 6 (eRoundS ctx 5 (eRound ctx 4 (eRoundS ctx 3 (eRound ctx 2 (eRoundS ctx 1 (eRound ctx 0 s0)))))))))) hb10
  have hb12 := eRoundS_bounded ctx 11 (eRound ctx 10 (eRoundS ctx 9 (eRound ctx 8 (eRoundS ctx 7 (eRound ctx 6 (eRoundS ctx 5 (eRound ctx 4 (eRoundS ctx 3 (eRound ctx 2 (eRoundS ctx 1 (eRound ctx 0 s0))))))))))) hb11
  have hb13 := eRound_bounded ctx 12 (eRoundS ctx 11 (eRound ctx 10 (eRoundS ctx 9 (eRound ctx 8 (eRoundS ctx 7 (eRound ctx 6 (eRoundS ctx 5 (eRound ctx 4 (eRoundS ctx 3 (eRound ctx 2 (eRoundS ctx 1 (eRound ctx 0 s0)))))))))))) hb12
  have hb14 := eRoundS_bounded ctx 13 (eRound ctx 12 (eRoundS ctx 11 (eRound ctx 10 (eRoundS ctx 9 (eRound ctx 8 (eRoundS ctx 7 (eRound ctx 6 (eRoundS ctx 5 (eRound ctx 4 (eRoundS ctx 3 (eRound ctx 2 (eRoundS ctx 1 (eRound ctx 0 s0))))))))))))) hb13
  have hb15 := eRound_bounded ctx 14 (eRoundS ctx 13 (eRound ctx 12 (eRoundS ctx 11 (eRound ctx 10 (eRoundS ctx 9 (eRound ctx 8 (eRoundS ctx 7 (eRound ctx 6 (eRoundS ctx 5 (eRound ctx 4 (eRoundS ctx 3 (eRound ctx 2 (eRoundS ctx 1 (eRound ctx 0 s0)))))))))))))) hb14
  unfold encCore decCore
  rw [cancel_A ctx 15 (eRound ctx 14 (eRoundS ctx 13 (eRound ctx 12 (eRoundS ctx 11 (eRound ctx 10 (eRoundS ctx 9 (eRound ctx 8 (eRoundS ctx 7 (eRound ctx 6 (eRoundS ctx 5 (eRound ctx 4 (eRoundS ctx 3 (eRound ctx 2 (eRoundS ctx 1 (eRound ctx 0 s0))))))))))))))) hb15.1 hb15.2.1]
  rw [cancel_B ctx 14 (eRoundS ctx 13 (eRound ctx 12 (eRoundS ctx 11 (eRound ctx 10 (eRoundS ctx 9 (eRound ctx 8 (eRoundS ctx 7 (eRound ctx 6 (eRoundS ctx 5 (eRound ctx 4 (eRoundS ctx 3 (eRound ctx 2 (eRoundS ctx 1 (eRound ctx 0 s0)))))))))))))) hb14.2.2.1 hb14.2.2.2]
  rw [cancel_A ctx 13 (eRound ctx 12 (eRoundS ctx 11 (eRound ctx 10 (eRoundS ctx 9 (eRound ctx 8 (eRoundS ctx 7 (eRound ctx 6 (eRoundS ctx 5 (eRound ctx 4 (eRoundS ctx 3 (eRound ctx 2 (eRoundS ctx 1 (eRound ctx 0 s0))))))))))))) hb13.1 hb13.2.1]
  rw [cancel_B ctx 12 (eRoundS ctx 11 (eRound ctx 10 (eRoundS ctx 9 (eRound ctx 8 (eRoundS ctx 7 (eRound ctx 6 (eRoundS ctx 5 (eRound ctx 4 (eRoundS ctx 3 (eRound ctx 2 (eRoundS ctx 1 (eRound ctx 0 s0)))))))))))) hb12.2.2.1 hb12.2.2.2]
  rw [cancel_A ctx 11 (eRound ctx 10 (eRoundS ctx 9 (eRound ctx 8 (eRoundS ctx 7 (eRound ctx 6 (eRoundS ctx 5 (eRound ctx 4 (eRoundS ctx 3 (eRound ctx 2 (eRoundS ctx 1 (eRound ctx 0 s0))))))))))) hb11.1 hb11.2.1]
  rw [cancel_B ctx 10 (eRoundS ctx 9 (eRound ctx 8 (eRoundS ctx 7 (eRound ctx 6 (eRoundS ctx 5 (eRound ctx 4 (eRoundS ctx 3 (eRound ctx 2 (eRoundS ctx 1 (eRound ctx 0 s0)))))))))) hb10.2.2.1 hb10.2.2.2]
  rw [cancel_A ctx 9 (eRound ctx 8 (eRoundS ctx 7 (eRound ctx 6 (eRoundS ctx 5 (eRound ctx 4 (eRoundS ctx 3 (eRound ctx 2 (eRoundS ctx 1 (eRound ctx 0 s0))))))))) hb9.1 hb9.2.1]
  rw [cancel_B ctx 8 (eRoundS ctx 7 (eRound ctx 6 (eRoundS ctx 5 (eRound ctx 4 (eRoundS ctx 3 (eRound ctx 2 (eRoundS ctx 1 (eRound ctx 0 s0)))))))) hb8.2.2.1 hb8.2.2.2]
  rw [cancel_A ctx 7 (eRound ctx 6 (eRoundS ctx 5 (eRound ctx 4 (eRoundS ctx 3 (eRound ctx 2 (eRoundS ctx 1 (eRound ctx 0 s0))))))) hb7.1 hb7.2.1]
  rw [cancel_B ctx 6 (eRoundS ctx 5 (eRound ctx 4 (eRoundS ctx 3 (eRound ctx 2 (eRoundS ctx 1 (eRound ctx 0 s0)))))) hb6.2.2.1 hb6.2.2.2]
  rw [cancel_A ctx 5 (eRound ctx 4 (eRoundS ctx 3 (eRound ctx 2 (eRoundS ctx 1 (eRound ctx 0 s0))))) hb5.1 hb5.2.1]
  rw [cancel_B ctx 4 (eRoundS ctx 3 (eRound ctx 2 (eRoundS ctx 1 (eRound ctx 0 s0)))) hb4.2.2.1 hb4.2.2.2]
  rw [cancel_A ctx 3 (eRound ctx 2 (eRoundS ctx 1 (eRound ctx 0 s0))) hb3.1 hb3.2.1]
  rw [cancel_B ctx 2 (eRoundS ctx 1 (eRound ctx 0 s0)) hb2.2.2.1 hb2.2.2.2]
  rw [cancel_A ctx 1 (eRound ctx 0 s0) hb1.1 hb1.2.1]
  rw [cancel_B ctx 0 s0 hb0.2.2.1 hb0.2.2.2]

theorem getD_lt_256 (l : List Nat) (i : Nat) (hl : ∀ x ∈ l, x < 256) :
    l.getD i 0 < 256 := by
  rcases hg : l.get? i with _ | v
  · rw [List.getD_eq_getElem?_getD, ← List.get?_eq_getElem?, hg]
    simp
  · rw [List.getD_eq_getElem?_getD, ← List.get?_eq_getElem?, hg]
    simp only [Option.getD_some]
    exact hl v (List.get?_mem hg)

theorem wordAt_lt (l : List Nat) (j : Nat) (hl : ∀ x ∈ l, x < 256) :
    wordAt l j < 4294967296 := by
  unfold wordAt
  have h0 := getD_lt_256 l (4 * j) hl
  have h1 := getD_lt_256 l (4 * j + 1) hl
  have h2 := getD_lt_256 l (4 * j + 2) hl
  have h3 := getD_lt_256 l (4 * j + 3) hl
  omega

theorem twofish_set_key_K_lt (M : List Nat) (ks i : Nat) :
    (twofish_set_key M ks).K i < 4294967296 := by
  unfold twofish_set_key
  dsimp only
  by_cases hpar : i % 2 = 0
  · rw [if_pos hpar]
    exact Nat.mod_lt _ (by omega)
  · rw [if_neg hpar]
    exact ROL_lt _ _

theorem wordAt_quad (w0 w1 w2 w3 : Nat)
    (h0 : w0 < 4294967296) (h1 : w1 < 4294967296)
    (h2 : w2 < 4294967296) (h3 : w3 < 4294967296) :
    wordAt (bytesOfWord w0 ++ bytesOfWord w1 ++ bytesOfWord w2 ++ bytesOfWord w3) 0 = w0 ∧
    wordAt (bytesOfWord w0 ++ bytesOfWord w1 ++ bytesOfWord w2 ++ bytesOfWord w3) 1 = w1 ∧
    wordAt (bytesOfWord w0 ++ bytesOfWord w1 ++ bytesOfWord w2 ++ bytesOfWord w3) 2 = w2 ∧
    wordAt (bytesOfWord w0 ++ bytesOfWord w1 ++ bytesOfWord w2 ++ bytesOfWord w3) 3 = w3 := by
  refine ⟨?_, ?_, ?_, ?_⟩ <;>
    · simp only [wordAt, bytesOfWord, List.cons_append, List.nil_append]
      norm_num [List.getD]
      omega

theorem exists_sixteen (l : List Nat) (hlen : l.length = 16) :
    ∃ a0 a1 a2 a3 a4 a5 a6 a7 a8 a9 a10 a11 a12 a13 a14 a15 : Nat,
      l = [a0, a1, a2, a3, a4, a5, a6, a7, a8, a9, a10, a11, a12, a13, a14, a15] := by
  rcases l with _ | ⟨a0, l⟩; · simp at hlen
  rcases l with _ | ⟨a1, l⟩; · simp at hlen
  rcases l with _ | ⟨a2, l⟩; · simp at hlen
  rcases l with _ | ⟨a3, l⟩; · simp at hlen
  rcases l with _ | ⟨a4, l⟩; · simp at hlen
  rcases l with _ | ⟨a5, l⟩; · simp at hlen
  rcases l with _ | ⟨a6, l⟩; · simp at hlen
  rcases l with _ | ⟨a7, l⟩; · simp at hlen
  rcases l with _ | ⟨a8, l⟩; · simp at hlen
  rcases l with _ | ⟨a9, l⟩; · simp at hlen
  rcases l with _ | ⟨a10, l⟩; · simp at hlen
  rcases l with _ | ⟨a11, l⟩; · simp at hlen
  rcases l with _ | ⟨a12, l⟩; · simp at hlen
  rcases l with _ | ⟨a13, l⟩; · simp at hlen
  rcases l with _ | ⟨a14, l⟩; · simp at hlen
  rcases l with _ | ⟨a15, l⟩; · simp at hlen
  rcases l with _ | ⟨a16, l⟩
  · exact ⟨a0, a1, a2, a3, a4, a5, a6, a7, a8, a9, a10, a11, a12, a13, a14, a15, rfl⟩
  · simp at hlen
theorem encCore_bounded (ctx : TWOFISH_CTX) (s0 : St)
    (hb : s0.r0 < 4294967296 ∧ s0.r1 < 4294967296 ∧ s0.r2 < 4294967296 ∧
      s0.r3 < 4294967296) :
    (encCore ctx s0).r0 < 4294967296 ∧ (encCore ctx s0).r1 < 4294967296 ∧
    (encCore ctx s0).r2 < 4294967296 ∧ (encCore ctx s0).r3 < 4294967296 := by
  have hb0 := hb
  have hb1 := eRound_bounded ctx 0 s0 hb0
  have hb2 := eRoundS_bounded ctx 1 (eRound ctx 0 s0) hb1
  have hb3 := eRound_bounded ctx 2 (eRoundS ctx 1 (eRound ctx 0 s0)) hb2
  have hb4 := eRoundS_bounded ctx 3 (eRound ctx 2 (eRoundS ctx 1 (eRound ctx 0 s0))) hb3
  have hb5 := eRound_bounded ctx 4 (eRoundS ctx 3 (eRound ctx 2 (eRoundS ctx 1 (eRound ctx 0 s0)))) hb4
  have hb6 := eRoundS_bounded ctx 5 (eRound ctx 4 (eRoundS ctx 3 (eRound ctx 2 (eRoundS ctx 1 (eRound ctx 0 s0))))) hb5
  have hb7 := eRound_bounded ctx 6 (eRoundS ctx 5 (eRound ctx 4 (eRoundS ctx 3 (eRound ctx 2 (eRoundS ctx 1 (eRound ctx 0 s0)))))) hb6
  have hb8 := eRoundS_bounded ctx 7 (eRound ctx 6 (eRoundS ctx 5 (eRound ctx 4 (eRoundS ctx 3 (eRound ctx 2 (eRoundS ctx 1 (eRound ctx 0 s0))))))) hb7
  have hb9 := eRound_bounded ctx 8 (eRoundS ctx 7 (eRound ctx 6 (eRoundS ctx 5 (eRound ctx 4 (eRoundS ctx 3 (eRound ctx 2 (eRoundS ctx 1 (eRound ctx 0 s0)))))))) hb8
  have hb10 := eRoundS_bounded ctx 9 (eRound ctx 8 (eRoundS ctx 7 (eRound ctx 6 (eRoundS ctx 5 (eRound ctx 4 (eRoundS ctx 3 (eRound ctx 2 (eRoundS ctx 1 (eRound ctx 0 s0))))))))) hb9
  have hb11 := eRound_bounded ctx 10 (eRoundS ctx 9 (eRound ctx 8 (eRoundS ctx 7 (eRound ctx 6 (eRoundS ctx 5 (eRound ctx 4 (eRoundS ctx 3 (eRound ctx 2 (eRoundS ctx 1 (eRound ctx 0 s0)))))))))) hb10
  have hb12 := eRoundS_bounded ctx 11 (eRound ctx 10 (eRoundS ctx 9 (eRound ctx 8 (eRoundS ctx 7 (eRound ctx 6 (eRoundS ctx 5 (eRound ctx 4 (eRoundS ctx 3 (eRound ctx 2 (eRoundS ctx 1 (eRound ctx 0 s0))))))))))) hb11
  have hb13 := eRound_bounded ctx 12 (eRoundS ctx 11 (eRound ctx 10 (eRoundS ctx 9 (eRound ctx 8 (eRoundS ctx 7 (eRound ctx 6 (eRoundS ctx 5 (eRound ctx 4 (eRoundS ctx 3 (eRound ctx 2 (eRoundS ctx 1 (eRound ctx 0 s0)))))))))))) hb12
  have hb14 := eRoundS_bounded ctx 13 (eRound ctx 12 (eRoundS ctx 11 (eRound ctx 10 (eRoundS ctx 9 (eRound ctx 8 (eRoundS ctx 7 (eRound ctx 6 (eRoundS ctx 5 (eRound ctx 4 (eRoundS ctx 3 (eRound ctx 2 (eRoundS ctx 1 (eRound ctx 0 s0))))))))))))) hb13
  have hb15 := eRound_bounded ctx 14 (eRoundS ctx 13 (eRound ctx 12 (eRoundS ctx 11 (eRound ctx 10 (eRoundS ctx 9 (eRound ctx 8 (eRoundS ctx 7 (eRound ctx 6 (eRoundS ctx 5 (eRound ctx 4 (eRoundS ctx 3 (eRound ctx 2 (eRoundS ctx 1 (eRound ctx 0 s0)))))))))))))) hb14
  have hb16 := eRoundS_bounded ctx 15 (eRound ctx 14 (eRoundS ctx 13 (eRound ctx 12 (eRoundS ctx 11 (eRound ctx 10 (eRoundS ctx 9 (eRound ctx 8 (eRoundS ctx 7 (eRound ctx 6 (eRoundS ctx 5 (eRound ctx 4 (eRoundS ctx 3 (eRound ctx 2 (eRoundS ctx 1 (eRound ctx 0 s0))))))))))))))) hb15
  unfold encCore
  exact hb16

theorem bytes_unpack_pack (a0 a1 a2 a3 a4 a5 a6 a7 a8 a9 a10 a11 a12 a13 a14 a15 : Nat)
    (hb : ∀ x ∈ [a0, a1, a2, a3, a4, a5, a6, a7, a8, a9, a10, a11, a12, a13, a14, a15],
      x < 256) :
    bytesOfWord (wordAt [a0, a1, a2, a3, a4, a5, a6, a7, a8, a9, a10, a11, a12, a13, a14, a15] 0) ++
    bytesOfWord (wordAt [a0, a1, a2, a3, a4, a5, a6, a7, a8, a9, a10, a11, a12, a13, a14, a15] 1) ++
    bytesOfWord (wordAt [a0, a1, a2, a3, a4, a5, a6, a7, a8, a9, a10, a11, a12, a13, a14, a15] 2) ++
    bytesOfWord (wordAt [a0, a1, a2, a3, a4, a5, a6, a7, a8, a9, a10, a11, a12, a13, a14, a15] 3) =
    [a0, a1, a2, a3, a4, a5, a6, a7, a8, a9, a10, a11, a12, a13, a14, a15] := by
  simp only [List.mem_cons, List.not_mem_nil, or_false, forall_eq_or_imp, forall_eq] at hb
  obtain ⟨h0, h1, h2, h3, h4, h5, h6, h7, h8, h9, h10, h11, h12, h13, h14, h15⟩ := hb
  show [_, _, _, _] ++ [_, _, _, _] ++ [_, _, _, _] ++ [_, _, _, _] = _
  simp only [List.cons_append, List.nil_append, List.cons.injEq, and_true]
  norm_num [wordAt, bytesOfWord]
  omega

theorem xor_cancel_right' (a bb : Nat) : (a ^^^ bb) ^^^ a = bb := by
  rw [Nat.xor_comm a bb, xor_cancel_right]

/-- C2: for every valid Twofish key (16, 24 or 32 bytes) and every
16-byte block, decryption under the keyed context inverts encryption:
each `DEC_ROUND` undoes the corresponding `ENC_ROUND` (the rotations are
inverse and the XORed round-key sums cancel), and both whitening layers
cancel. -/
theorem c2_twofish_roundtrip (M pt : List Nat)
    (_hklen : M.length = 16 ∨ M.length = 24 ∨ M.length = 32)
    (_hkbytes : ∀ x ∈ M, x < 256)
    (hlen : pt.length = 16) (hbytes : ∀ x ∈ pt, x < 256) :
    twofish_decrypt (twofish_set_key M (8 * M.length))
      (twofish_encrypt (twofish_set_key M (8 * M.length)) pt) = pt := by
  obtain ⟨a0, a1, a2, a3, a4, a5, a6, a7, a8, a9, a10, a11, a12, a13, a14, a15, rfl⟩ :=
    exists_sixteen pt hlen
  set ctx := twofish_set_key M (8 * M.length) with hctx
  set pt : List Nat :=
    [a0, a1, a2, a3, a4, a5, a6, a7, a8, a9, a10, a11, a12, a13, a14, a15] with hpt
  have hK : ∀ i, ctx.K i < 4294967296 := fun i => by
    rw [hctx]; exact twofish_set_key_K_lt M _ i
  have hw : ∀ j, wordAt pt j < 4294967296 := fun j => wordAt_lt pt j hbytes
  set s0 : St := ⟨ctx.K 0 ^^^ wordAt pt 0, ctx.K 1 ^^^ wordAt pt 1,
    ctx.K 2 ^^^ wordAt pt 2, ctx.K 3 ^^^ wordAt pt 3⟩ with hs0
  have hb0 : s0.r0 < 4294967296 ∧ s0.r1 < 4294967296 ∧ s0.r2 < 4294967296 ∧
      s0.r3 < 4294967296 :=
    ⟨xor_lt_w32 _ _ (hK 0) (hw 0), xor_lt_w32 _ _ (hK 1) (hw 1),
     xor_lt_w32 _ _ (hK 2) (hw 2), xor_lt_w32 _ _ (hK 3) (hw 3)⟩
  set sE : St := encCore ctx s0 with hsE
  have hbE := encCore_bounded ctx s0 hb0
  rw [← hsE] at hbE
  have henc : twofish_encrypt ctx pt =
      bytesOfWord (sE.r2 ^^^ ctx.K 4) ++ bytesOfWord (sE.r3 ^^^ ctx.K 5) ++
      bytesOfWord (sE.r0 ^^^ ctx.K 6) ++ bytesOfWord (sE.r1 ^^^ ctx.K 7) := rfl
  have hq := wordAt_quad (sE.r2 ^^^ ctx.K 4) (sE.r3 ^^^ ctx.K 5)
    (sE.r0 ^^^ ctx.K 6) (sE.r1 ^^^ ctx.K 7)
    (xor_lt_w32 _ _ hbE.2.2.1 (hK 4)) (xor_lt_w32 _ _ hbE.2.2.2 (hK 5))
    (xor_lt_w32 _ _ hbE.1 (hK 6)) (xor_lt_w32 _ _ hbE.2.1 (hK 7))
  rw [henc]
  show (let sd0 : St := ⟨ctx.K 4 ^^^ wordAt (bytesOfWord (sE.r2 ^^^ ctx.K 4) ++
      bytesOfWord (sE.r3 ^^^ ctx.K 5) ++ bytesOfWord (sE.r0 ^^^ ctx.K 6) ++
      bytesOfWord (sE.r1 ^^^ ctx.K 7)) 0,
    ctx.K 5 ^^^ wordAt (bytesOfWord (sE.r2 ^^^ ctx.K 4) ++
      bytesOfWord (sE.r3 ^^^ ctx.K 5) ++ bytesOfWord (sE.r0 ^^^ ctx.K 6) ++
      bytesOfWord (sE.r1 ^^^ ctx.K 7)) 1,
    ctx.K 6 ^^^ wordAt (bytesOfWord (sE.r2 ^^^ ctx.K 4) ++
      bytesOfWord (sE.r3 ^^^ ctx.K 5) ++ bytesOfWord (sE.r0 ^^^ ctx.K 6) ++
      bytesOfWord (sE.r1 ^^^ ctx.K 7)) 2,
    ctx.K 7 ^^^ wordAt (bytesOfWord (sE.r2 ^^^ ctx.K 4) ++
      bytesOfWord (sE.r3 ^^^ ctx.K 5) ++ bytesOfWord (sE.r0 ^^^ ctx.K 6) ++
      bytesOfWord (sE.r1 ^^^ ctx.K 7)) 3⟩
    let sd := decCore ctx sd0
    bytesOfWord (sd.r2 ^^^ ctx.K 0) ++ bytesOfWord (sd.r3 ^^^ ctx.K 1) ++
      bytesOfWord (sd.r0 ^^^ ctx.K 2) ++ bytesOfWord (sd.r1 ^^^ ctx.K 3)) = pt
  rw [hq.1, hq.2.1, hq.2.2.1, hq.2.2.2]
  rw [xor_cancel_left (ctx.K 4) sE.r2, xor_cancel_left (ctx.K 5) sE.r3,
    xor_cancel_left (ctx.K 6) sE.r0, xor_cancel_left (ctx.K 7) sE.r1]
  show (let sd := decCore ctx (swapHalves sE)
    bytesOfWord (sd.r2 ^^^ ctx.K 0) ++ bytesOfWord (sd.r3 ^^^ ctx.K 1) ++
      bytesOfWord (sd.r0 ^^^ ctx.K 2) ++ bytesOfWord (sd.r1 ^^^ ctx.K 3)) = pt
  rw [hsE, decCore_encCore ctx s0 hb0]
  show bytesOfWord (s0.r0 ^^^ ctx.K 0) ++ bytesOfWord (s0.r1 ^^^ ctx.K 1) ++
      bytesOfWord (s0.r2 ^^^ ctx.K 2) ++ bytesOfWord (s0.r3 ^^^ ctx.K 3) = pt
  rw [hs0]
  show bytesOfWord ((ctx.K 0 ^^^ wordAt pt 0) ^^^ ctx.K 0) ++
      bytesOfWord ((ctx.K 1 ^^^ wordAt pt 1) ^^^ ctx.K 1) ++
      bytesOfWord ((ctx.K 2 ^^^ wordAt pt 2) ^^^ ctx.K 2) ++
      bytesOfWord ((ctx.K 3 ^^^ wordAt pt 3) ^^^ ctx.K 3) = pt
  rw [xor_cancel_right' (ctx.K 0), xor_cancel_right' (ctx.K 1),
    xor_cancel_right' (ctx.K 2), xor_cancel_right' (ctx.K 3)]
  rw [hpt]
  exact bytes_unpack_pack a0 a1 a2 a3 a4 a5 a6 a7 a8 a9 a10 a11 a12 a13 a14 a15
    (hpt ▸ hbytes)

/-- Witness for `c2_twofish_roundtrip`: the all-zero 16-byte key and the
block `00 01 02 ... 0F`. -/
theorem c2_twofish_roundtrip_witness :
    ((List.replicate 16 (0 : Nat)).length = 16 ∨
      (List.replicate 16 (0 : Nat)).length = 24 ∨
      (List.replicate 16 (0 : Nat)).length = 32) ∧
    (∀ x ∈ List.replicate 16 (0 : Nat), x < 256) ∧
    ([0, 1, 2, 3, 4, 5, 6, 7, 8, 9, 10, 11, 12, 13, 14, 15] : List Nat).length = 16 ∧
    (∀ x ∈ ([0, 1, 2, 3, 4, 5, 6, 7, 8, 9, 10, 11, 12, 13, 14, 15] : List Nat), x < 256) ∧
    twofish_decrypt (twofish_set_key (List.replicate 16 0) (8 * (List.replicate 16 (0 : Nat)).length))
      (twofish_encrypt (twofish_set_key (List.replicate 16 0) (8 * (List.replicate 16 (0 : Nat)).length))
        [0, 1, 2, 3, 4, 5, 6, 7, 8, 9, 10, 11, 12, 13, 14, 15]) =
      [0, 1, 2, 3, 4, 5, 6, 7, 8, 9, 10, 11, 12, 13, 14, 15] :=
  ⟨by decide, by decide, by decide, by decide,
    c2_twofish_roundtrip (List.replicate 16 0)
      [0, 1, 2, 3, 4, 5, 6, 7, 8, 9, 10, 11, 12, 13, 14, 15]
      (by decide) (by decide) (by decide) (by decide)⟩

theorem getD_lt_bound (l : List Nat) (i bnd : Nat) (hl : ∀ x ∈ l, x < bnd)
    (hb : 0 < bnd) : l.getD i 0 < bnd := by
  rcases hg : l.get? i with _ | v
  · rw [List.getD_eq_getElem?_getD, ← List.get?_eq_getElem?, hg]
    simpa using hb
  · rw [List.getD_eq_getElem?_getD, ← List.get?_eq_getElem?, hg]
    simp only [Option.getD_some]
    exact hl v (List.get?_mem hg)

theorem qPerm_pack_lt (t2 t3 : List Nat) (i j : Nat)
    (h2 : ∀ x ∈ t2, x < 16) (h3 : ∀ x ∈ t3, x < 16) :
    16 * t3.getD j 0 + t2.getD i 0 < 256 := by
  have ha := getD_lt_bound t2 i 16 h2 (by omega)
  have hb := getD_lt_bound t3 j 16 h3 (by omega)
  omega

theorem Q0_lt_all (x : Nat) : Q0 x < 256 := by
  unfold Q0 qPerm
  exact qPerm_pack_lt q0t2 q0t3 _ _ (by decide) (by decide)

theorem Q1_lt_all (x : Nat) : Q1 x < 256 := by
  unfold Q1 qPerm
  exact qPerm_pack_lt q1t2 q1t3 _ _ (by decide) (by decide)

theorem xor_lt_256 (a bb : Nat) (ha : a < 256) (hb : bb < 256) : a ^^^ bb < 256 := by
  have h1 : (256 : Nat) = 2 ^ 8 := by norm_num
  rw [h1] at ha hb ⊢
  exact Nat.xor_lt_two_pow ha hb

set_option maxRecDepth 40000 in
theorem mult5B_lt : ∀ y < 256, mult5B y < 256 := by decide

set_option maxRecDepth 40000 in
theorem multEF_lt : ∀ y < 256, multEF y < 256 := by decide

theorem qSwitch_lt (L : Nat → Nat) (k : Nat) (v : B4)
    (hk : k = 2 ∨ k = 3 ∨ k = 4) :
    (qSwitch L k v).y0 < 256 ∧ (qSwitch L k v).y1 < 256 ∧
    (qSwitch L k v).y2 < 256 ∧ (qSwitch L k v).y3 < 256 := by
  have hlayer2 : ∀ w : B4, (qLayer2 L w).y0 < 256 ∧ (qLayer2 L w).y1 < 256 ∧
      (qLayer2 L w).y2 < 256 ∧ (qLayer2 L w).y3 < 256 := by
    intro w
    unfold qLayer2
    exact ⟨Q1_lt_all _, Q0_lt_all _, Q1_lt_all _, Q0_lt_all _⟩
  unfold qSwitch
  rcases hk with hk | hk | hk <;> subst hk <;> exact hlayer2 _

theorem testBit_mul_two_pow_of_lt (x k i : Nat) (h : i < k) :
    (x * 2 ^ k).testBit i = false := by
  rw [← Nat.shiftLeft_eq, Nat.testBit_shiftLeft]
  rw [decide_eq_false (by omega), Bool.false_and]

theorem mul_two_pow_lor (x y k : Nat) (hy : y < 2 ^ k) :
    x * 2 ^ k ||| y = x * 2 ^ k + y := by
  apply Nat.eq_of_testBit_eq
  intro i
  rw [Nat.testBit_lor]
  by_cases hik : i < k
  · rw [testBit_mul_two_pow_of_lt x k i hik, Bool.false_or]
    rw [Nat.testBit_to_div_mod, Nat.testBit_to_div_mod]
    have hsplit : (2 : Nat) ^ k = 2 ^ (k - i) * 2 ^ i := by
      rw [← pow_add]
      congr 1
      omega
    have hdiv : (x * 2 ^ k + y) / 2 ^ i = y / 2 ^ i + x * 2 ^ (k - i) := by
      rw [hsplit, ← Nat.mul_assoc, Nat.add_comm,
        Nat.add_mul_div_right _ _ (by positivity)]
    rw [hdiv]
    have heven : x * 2 ^ (k - i) % 2 = 0 := by
      rw [show k - i = (k - i - 1) + 1 from by omega, pow_succ, ← Nat.mul_assoc]
      exact Nat.mul_mod_left _ 2
    have hmod : (y / 2 ^ i + x * 2 ^ (k - i)) % 2 = y / 2 ^ i % 2 := by omega
    rw [hmod]
  · have hyb : y.testBit i = false :=
      Nat.testBit_lt_two_pow
        (lt_of_lt_of_le hy (Nat.pow_le_pow_right (by omega) (by omega)))
    rw [hyb, Bool.or_false]
    rw [Nat.testBit_to_div_mod, Nat.testBit_to_div_mod]
    have key : ∀ z, z < 2 ^ k → (x * 2 ^ k + z) / 2 ^ i = x / 2 ^ (i - k) := by
      intro z hz
      have h2i : (2 : Nat) ^ i = 2 ^ k * 2 ^ (i - k) := by
        rw [← pow_add]
        congr 1
        omega
      rw [h2i, ← Nat.div_div_eq_div_mul, Nat.add_comm,
        Nat.add_mul_div_right _ _ (by positivity), Nat.div_eq_of_lt hz,
        Nat.zero_add]
    have hL : (x * 2 ^ k + y) / 2 ^ i = x / 2 ^ (i - k) := key y hy
    have hR : x * 2 ^ k / 2 ^ i = x / 2 ^ (i - k) := by
      have := key 0 (by positivity)
      simpa using this
    rw [hL, hR]

theorem mul_two_pow_xor (x y k : Nat) (hy : y < 2 ^ k) :
    x * 2 ^ k ^^^ y = x * 2 ^ k + y := by
  rw [← mul_two_pow_lor x y k hy]
  apply Nat.eq_of_testBit_eq
  intro i
  rw [Nat.testBit_xor, Nat.testBit_lor]
  by_cases hik : i < k
  · rw [testBit_mul_two_pow_of_lt x k i hik, Bool.false_xor, Bool.false_or]
  · have hyb : y.testBit i = false :=
      Nat.testBit_lt_two_pow
        (lt_of_lt_of_le hy (Nat.pow_le_pow_right (by omega) (by omega)))
    rw [hyb, Bool.xor_false, Bool.or_false]

theorem pack4_or_eq_xor (a bb c d : Nat) (_ha : a < 256) (hb : bb < 256)
    (hc : c < 256) (hd : d < 256) :
    a <<< 24 ||| bb <<< 16 ||| c <<< 8 ||| d =
      a <<< 24 ^^^ bb <<< 16 ^^^ c <<< 8 ^^^ d := by
  have e8 : (2 : Nat) ^ 8 = 256 := by norm_num
  have e16 : (2 : Nat) ^ 16 = 65536 := by norm_num
  have e24 : (2 : Nat) ^ 24 = 16777216 := by norm_num
  simp only [Nat.shiftLeft_eq]
  rw [Nat.lor_assoc, Nat.lor_assoc, Nat.xor_assoc, Nat.xor_assoc]
  rw [mul_two_pow_lor c d 8 (by rw [e8]; exact hd)]
  rw [mul_two_pow_lor bb (c * 2 ^ 8 + d) 16 (by rw [e16, e8]; omega)]
  rw [mul_two_pow_lor a (bb * 2 ^ 16 + (c * 2 ^ 8 + d)) 24
    (by rw [e24, e16, e8]; omega)]
  rw [mul_two_pow_xor c d 8 (by rw [e8]; exact hd)]
  rw [mul_two_pow_xor bb (c * 2 ^ 8 + d) 16 (by rw [e16, e8]; omega)]
  rw [mul_two_pow_xor a (bb * 2 ^ 16 + (c * 2 ^ 8 + d)) 24
    (by rw [e24, e16, e8]; omega)]

theorem shiftLeft_xor_distrib (a bb n : Nat) :
    (a ^^^ bb) <<< n = a <<< n ^^^ bb <<< n := by
  apply Nat.eq_of_testBit_eq
  intro i
  simp only [Nat.testBit_shiftLeft, Nat.testBit_xor]
  cases hni : decide (n ≤ i) <;> simp

theorem qSwitch_y0_eq (L : Nat → Nat) (k : Nat) (v : B4) :
    (qSwitch L k v).y0 =
      if k = 4 then
        Q1 (Q0 (Q0 (Q1 (Q1 v.y0 ^^^ b0 (L 3)) ^^^ b0 (L 2)) ^^^ b0 (L 1)) ^^^
          b0 (L 0))
      else if k = 3 then
        Q1 (Q0 (Q0 (Q1 v.y0 ^^^ b0 (L 2)) ^^^ b0 (L 1)) ^^^ b0 (L 0))
      else if k = 2 then Q1 (Q0 (Q0 v.y0 ^^^ b0 (L 1)) ^^^ b0 (L 0))
      else v.y0 := by
  unfold qSwitch
  split_ifs <;> rfl

theorem qSwitch_y1_eq (L : Nat → Nat) (k : Nat) (v : B4) :
    (qSwitch L k v).y1 =
      if k = 4 then
        Q0 (Q0 (Q1 (Q1 (Q0 v.y1 ^^^ b1 (L 3)) ^^^ b1 (L 2)) ^^^ b1 (L 1)) ^^^
          b1 (L 0))
      else if k = 3 then
        Q0 (Q0 (Q1 (Q1 v.y1 ^^^ b1 (L 2)) ^^^ b1 (L 1)) ^^^ b1 (L 0))
      else if k = 2 then Q0 (Q0 (Q1 v.y1 ^^^ b1 (L 1)) ^^^ b1 (L 0))
      else v.y1 := by
  unfold qSwitch
  split_ifs <;> rfl

theorem qSwitch_y2_eq (L : Nat → Nat) (k : Nat) (v : B4) :
    (qSwitch L k v).y2 =
      if k = 4 then
        Q1 (Q1 (Q0 (Q0 (Q0 v.y2 ^^^ b2 (L 3)) ^^^ b2 (L 2)) ^^^ b2 (L 1)) ^^^
          b2 (L 0))
      else if k = 3 then
        Q1 (Q1 (Q0 (Q0 v.y2 ^^^ b2 (L 2)) ^^^ b2 (L 1)) ^^^ b2 (L 0))
      else if k = 2 then Q1 (Q1 (Q0 v.y2 ^^^ b2 (L 1)) ^^^ b2 (L 0))
      else v.y2 := by
  unfold qSwitch
  split_ifs <;> rfl

theorem qSwitch_y3_eq (L : Nat → Nat) (k : Nat) (v : B4) :
    (qSwitch L k v).y3 =
      if k = 4 then
        Q0 (Q1 (Q1 (Q0 (Q1 v.y3 ^^^ b3 (L 3)) ^^^ b3 (L 2)) ^^^ b3 (L 1)) ^^^
          b3 (L 0))
      else if k = 3 then
        Q0 (Q1 (Q1 (Q0 v.y3 ^^^ b3 (L 2)) ^^^ b3 (L 1)) ^^^ b3 (L 0))
      else if k = 2 then Q0 (Q1 (Q1 v.y3 ^^^ b3 (L 1)) ^^^ b3 (L 0))
      else v.y3 := by
  unfold qSwitch
  split_ifs <;> rfl

theorem qSwitch_lane0 (L : Nat → Nat) (k : Nat) (v w : B4)
    (h : v.y0 = w.y0) : (qSwitch L k v).y0 = (qSwitch L k w).y0 := by
  rw [qSwitch_y0_eq, qSwitch_y0_eq, h]

theorem qSwitch_lane1 (L : Nat → Nat) (k : Nat) (v w : B4)
    (h : v.y1 = w.y1) : (qSwitch L k v).y1 = (qSwitch L k w).y1 := by
  rw [qSwitch_y1_eq, qSwitch_y1_eq, h]

theorem qSwitch_lane2 (L : Nat → Nat) (k : Nat) (v w : B4)
    (h : v.y2 = w.y2) : (qSwitch L k v).y2 = (qSwitch L k w).y2 := by
  rw [qSwitch_y2_eq, qSwitch_y2_eq, h]

theorem qSwitch_lane3 (L : Nat → Nat) (k : Nat) (v w : B4)
    (h : v.y3 = w.y3) : (qSwitch L k v).y3 = (qSwitch L k w).y3 := by
  rw [qSwitch_y3_eq, qSwitch_y3_eq, h]

theorem pack_refine (u0 u1 u2 u3 : Nat) (h0 : u0 < 256) (h1 : u1 < 256)
    (h2 : u2 < 256) (h3 : u3 < 256) :
    (multEF u0 <<< 24 ||| multEF u0 <<< 16 ||| mult5B u0 <<< 8 ||| u0) ^^^
      (u1 <<< 24 ||| mult5B u1 <<< 16 ||| multEF u1 <<< 8 ||| multEF u1) ^^^
      (multEF u2 <<< 24 ||| u2 <<< 16 ||| multEF u2 <<< 8 ||| mult5B u2) ^^^
      (mult5B u3 <<< 24 ||| multEF u3 <<< 16 ||| u3 <<< 8 ||| mult5B u3) =
    ((multEF u0 ^^^ u1 ^^^ multEF u2 ^^^ mult5B u3) % 256) <<< 24 ^^^
      ((multEF u0 ^^^ mult5B u1 ^^^ u2 ^^^ multEF u3) % 256) <<< 16 ^^^
      ((mult5B u0 ^^^ multEF u1 ^^^ multEF u2 ^^^ u3) % 256) <<< 8 ^^^
      (u0 ^^^ multEF u1 ^^^ mult5B u2 ^^^ mult5B u3) % 256 := by
  have a0 := multEF_lt u0 h0
  have a1 := multEF_lt u1 h1
  have a2 := multEF_lt u2 h2
  have a3 := multEF_lt u3 h3
  have c0 := mult5B_lt u0 h0
  have c1 := mult5B_lt u1 h1
  have c2 := mult5B_lt u2 h2
  have c3 := mult5B_lt u3 h3
  have z0lt : multEF u0 ^^^ u1 ^^^ multEF u2 ^^^ mult5B u3 < 256 :=
    xor_lt_256 _ _ (xor_lt_256 _ _ (xor_lt_256 _ _ a0 h1) a2) c3
  have z1lt : multEF u0 ^^^ mult5B u1 ^^^ u2 ^^^ multEF u3 < 256 :=
    xor_lt_256 _ _ (xor_lt_256 _ _ (xor_lt_256 _ _ a0 c1) h2) a3
  have z2lt : mult5B u0 ^^^ multEF u1 ^^^ multEF u2 ^^^ u3 < 256 :=
    xor_lt_256 _ _ (xor_lt_256 _ _ (xor_lt_256 _ _ c0 a1) a2) h3
  have z3lt : u0 ^^^ multEF u1 ^^^ mult5B u2 ^^^ mult5B u3 < 256 :=
    xor_lt_256 _ _ (xor_lt_256 _ _ (xor_lt_256 _ _ h0 a1) c2) c3
  rw [Nat.mod_eq_of_lt z0lt, Nat.mod_eq_of_lt z1lt, Nat.mod_eq_of_lt z2lt,
    Nat.mod_eq_of_lt z3lt]
  rw [pack4_or_eq_xor _ _ _ _ a0 a0 c0 h0,
    pack4_or_eq_xor _ _ _ _ h1 c1 a1 a1,
    pack4_or_eq_xor _ _ _ _ a2 h2 a2 c2,
    pack4_or_eq_xor _ _ _ _ c3 a3 h3 c3]
  simp only [shiftLeft_xor_distrib]
  have xlc : ∀ x y z : Nat, x ^^^ (y ^^^ z) = y ^^^ (x ^^^ z) := by
    intro x y z
    rw [← Nat.xor_assoc, Nat.xor_comm x y, Nat.xor_assoc]
  simp [Nat.xor_assoc, Nat.xor_comm, xlc]

/-- C8: after `twofish_set_key` has computed the S-box key words `S` (so
that the context's `QF` is `fullKey S k`), for every word `X` the
table-lookup `fkh` — `QF[0][b0 X] ^ QF[1][b1 X] ^ QF[2][b2 X] ^
QF[3][b3 X]`, the form used in every round — equals the direct keyed
`h X S k`: the precomputed `QF` tables built by `fullKey` are an exact
refinement of `h`. -/
theorem c8_qf_refines_h (ctx : TWOFISH_CTX) (S : Nat → Nat) (k X : Nat)
    (hk : k = 2 ∨ k = 3 ∨ k = 4) (hQF : ctx.QF = fullKey S k) :
    fkh ctx X = h X S k := by
  obtain ⟨hu0, hu1, hu2, hu3⟩ := qSwitch_lt S k ⟨b0 X, b1 X, b2 X, b3 X⟩ hk
  have hfkh : fkh ctx X =
      (multEF ((qSwitch S k ⟨b0 X, b0 X, b0 X, b0 X⟩).y0) <<< 24 |||
        multEF ((qSwitch S k ⟨b0 X, b0 X, b0 X, b0 X⟩).y0) <<< 16 |||
        mult5B ((qSwitch S k ⟨b0 X, b0 X, b0 X, b0 X⟩).y0) <<< 8 |||
        (qSwitch S k ⟨b0 X, b0 X, b0 X, b0 X⟩).y0) ^^^
      ((qSwitch S k ⟨b1 X, b1 X, b1 X, b1 X⟩).y1 <<< 24 |||
        mult5B ((qSwitch S k ⟨b1 X, b1 X, b1 X, b1 X⟩).y1) <<< 16 |||
        multEF ((qSwitch S k ⟨b1 X, b1 X, b1 X, b1 X⟩).y1) <<< 8 |||
        multEF ((qSwitch S k ⟨b1 X, b1 X, b1 X, b1 X⟩).y1)) ^^^
      (multEF ((qSwitch S k ⟨b2 X, b2 X, b2 X, b2 X⟩).y2) <<< 24 |||
        (qSwitch S k ⟨b2 X, b2 X, b2 X, b2 X⟩).y2 <<< 16 |||
        multEF ((qSwitch S k ⟨b2 X, b2 X, b2 X, b2 X⟩).y2) <<< 8 |||
        mult5B ((qSwitch S k ⟨b2 X, b2 X, b2 X, b2 X⟩).y2)) ^^^
      (mult5B ((qSwitch S k ⟨b3 X, b3 X, b3 X, b3 X⟩).y3) <<< 24 |||
        multEF ((qSwitch S k ⟨b3 X, b3 X, b3 X, b3 X⟩).y3) <<< 16 |||
        (qSwitch S k ⟨b3 X, b3 X, b3 X, b3 X⟩).y3 <<< 8 |||
        mult5B ((qSwitch S k ⟨b3 X, b3 X, b3 X, b3 X⟩).y3)) := by
    unfold fkh
    rw [hQF]
    rfl
  have e0 : (qSwitch S k ⟨b0 X, b0 X, b0 X, b0 X⟩).y0 =
      (qSwitch S k ⟨b0 X, b1 X, b2 X, b3 X⟩).y0 :=
    qSwitch_lane0 S k _ _ rfl
  have e1 : (qSwitch S k ⟨b1 X, b1 X, b1 X, b1 X⟩).y1 =
      (qSwitch S k ⟨b0 X, b1 X, b2 X, b3 X⟩).y1 :=
    qSwitch_lane1 S k _ _ rfl
  have e2 : (qSwitch S k ⟨b2 X, b2 X, b2 X, b2 X⟩).y2 =
      (qSwitch S k ⟨b0 X, b1 X, b2 X, b3 X⟩).y2 :=
    qSwitch_lane2 S k _ _ rfl
  have e3 : (qSwitch S k ⟨b3 X, b3 X, b3 X, b3 X⟩).y3 =
      (qSwitch S k ⟨b0 X, b1 X, b2 X, b3 X⟩).y3 :=
    qSwitch_lane3 S k _ _ rfl
  have hh : h X S k =
      ((multEF ((qSwitch S k ⟨b0 X, b1 X, b2 X, b3 X⟩).y0) ^^^
          (qSwitch S k ⟨b0 X, b1 X, b2 X, b3 X⟩).y1 ^^^
          multEF ((qSwitch S k ⟨b0 X, b1 X, b2 X, b3 X⟩).y2) ^^^
          mult5B ((qSwitch S k ⟨b0 X, b1 X, b2 X, b3 X⟩).y3)) % 256) <<< 24 ^^^
      ((multEF ((qSwitch S k ⟨b0 X, b1 X, b2 X, b3 X⟩).y0) ^^^
          mult5B ((qSwitch S k ⟨b0 X, b1 X, b2 X, b3 X⟩).y1) ^^^
          (qSwitch S k ⟨b0 X, b1 X, b2 X, b3 X⟩).y2 ^^^
          multEF ((qSwitch S k ⟨b0 X, b1 X, b2 X, b3 X⟩).y3)) % 256) <<< 16 ^^^
      ((mult5B ((qSwitch S k ⟨b0 X, b1 X, b2 X, b3 X⟩).y0) ^^^
          multEF ((qSwitch S k ⟨b0 X, b1 X, b2 X, b3 X⟩).y1) ^^^
          multEF ((qSwitch S k ⟨b0 X, b1 X, b2 X, b3 X⟩).y2) ^^^
          (qSwitch S k ⟨b0 X, b1 X, b2 X, b3 X⟩).y3) % 256) <<< 8 ^^^
      ((qSwitch S k ⟨b0 X, b1 X, b2 X, b3 X⟩).y0 ^^^
          multEF ((qSwitch S k ⟨b0 X, b1 X, b2 X, b3 X⟩).y1) ^^^
          mult5B ((qSwitch S k ⟨b0 X, b1 X, b2 X, b3 X⟩).y2) ^^^
          mult5B ((qSwitch S k ⟨b0 X, b1 X, b2 X, b3 X⟩).y3)) % 256 := rfl
  rw [hfkh, e0, e1, e2, e3, hh]
  exact pack_refine _ _ _ _ hu0 hu1 hu2 hu3

theorem c8_qf_refines_h_witness :
    ((2 : Nat) = 2 ∨ (2 : Nat) = 3 ∨ (2 : Nat) = 4) ∧
    (TWOFISH_CTX.mk (fun _ => 0) (fullKey (fun _ => 0) 2)).QF =
      fullKey (fun _ => 0) 2 ∧
    fkh (TWOFISH_CTX.mk (fun _ => 0) (fullKey (fun _ => 0) 2)) 5 =
      h 5 (fun _ => 0) 2 :=
  ⟨Or.inl rfl, rfl,
    c8_qf_refines_h (TWOFISH_CTX.mk (fun _ => 0) (fullKey (fun _ => 0) 2))
      (fun _ => 0) 2 5 (Or.inl rfl) rfl⟩
